import Mathlib

/-!
# Game Boy CPU core: `cmd/main.go`

A shallow embedding of the register file, the memory slice, the constructor
`NewGameboy` and the fetch-decode-execute loop `Gameboy.Run`, followed by the
properties established about them.

Conventions of the embedding.

* `uint8` and `uint16` values are natural numbers; every operation that can
  leave the width is followed by an explicit `% 256` or `% 65536`.
* A Go `[]byte` is a `ByteSlice`: the backing array seen from the first element
  of the slice up to its capacity, and the length of the slice.
* `Run` mutates the CPU through a pointer, so one cycle returns the state after
  the cycle together with what happened (`Status`); a runtime panic of Go
  (index or slice bounds out of range) is the status `panicked`.
-/

namespace GB

/-! ## Constants -/

/-- The constant `MemorySize`: 64 KB addressable memory space. -/
def MemorySize : Nat := 0x10000

/-- The constant `EntryPoint`: the initial program counter value. -/
def EntryPoint : Nat := 0x100

/-! ## Data model -/

/-- The anonymous struct of the field `CPU.Flags`. -/
structure FlagBits where
  /-- zero -/
  Z : Bool
  /-- subtract -/
  N : Bool
  /-- half carry -/
  H : Bool
  /-- carry -/
  C : Bool
  deriving DecidableEq, Repr

/-- The struct `CPU`: seven `uint8` registers, the `uint16` stack pointer and
program counter, and the flags. -/
structure CPU where
  A : Nat
  B : Nat
  C : Nat
  D : Nat
  E : Nat
  H : Nat
  L : Nat
  SP : Nat
  PC : Nat
  Flags : FlagBits
  deriving DecidableEq, Repr

/-- A Go byte slice: `elems` is the backing array from the first element of the
slice to its capacity, `len` is the length of the slice. -/
structure ByteSlice where
  elems : List Nat
  len : Nat
  deriving DecidableEq, Repr

/-- The struct `Gameboy`; the pointer `CPU *CPU` is the CPU it points to. -/
structure Gameboy where
  Memory : ByteSlice
  CPU : CPU
  deriving DecidableEq, Repr

/-- A runtime panic of Go raised by an index or a slice expression. -/
inductive RuntimePanic where
  | indexOutOfRange (index length : Nat)
  | sliceBoundsOutOfRange (low high capacity : Nat)
  deriving DecidableEq, Repr

/-- What one cycle of the loop of `Run` did: went on to the next cycle,
returned an error (the text of the `fmt.Errorf` value), or panicked. -/
inductive Status where
  | running
  | returned (err : String)
  | panicked (p : RuntimePanic)
  deriving DecidableEq, Repr

/-! ## Go slices -/

/-- Capacity of a slice, `cap(s)`. -/
def ByteSlice.cap (s : ByteSlice) : Nat := s.elems.length

/-- The slice invariants of Go: the length is at most the capacity and every
element is a `uint8`. -/
def ByteSlice.WellTyped (s : ByteSlice) : Prop :=
  s.len ≤ s.elems.length ∧ ∀ b ∈ s.elems, b < 256

/-- The index expression `s[i]`: panics unless `i < len(s)`. -/
def ByteSlice.index (s : ByteSlice) (i : Nat) : Except RuntimePanic Nat :=
  if i < s.len then
    match s.elems[i]? with
    | some b => .ok b
    | none => .error (.indexOutOfRange i s.len)
  else .error (.indexOutOfRange i s.len)

/-- The slice expression `s[low:high]`: panics unless
`low <= high <= cap(s)`; the result shares the backing array. -/
def ByteSlice.slice (s : ByteSlice) (low high : Nat) : Except RuntimePanic ByteSlice :=
  if high ≤ s.cap ∧ low ≤ high then
    .ok { elems := s.elems.drop low, len := high - low }
  else .error (.sliceBoundsOutOfRange low high s.cap)

/-- The function `binary.LittleEndian.Uint16`:
`_ = b[1]; return uint16(b[0]) | uint16(b[1])<<8`. -/
def LittleEndian.Uint16 (b : ByteSlice) : Except RuntimePanic Nat := do
  let _ ← b.index 1
  let b0 ← b.index 0
  let b1 ← b.index 1
  return b0 ||| ((b1 <<< 8) % 65536)

/-! ## Register pair H:L -/

/-- The method `GetHL`: `uint16(cpu.H)<<8 | uint16(cpu.L)`. -/
def CPU.GetHL (cpu : CPU) : Nat :=
  ((cpu.H <<< 8) % 65536) ||| cpu.L

/-- The method `SetHL`: `cpu.H = uint8(value >> 8); cpu.L = uint8(value & 0xFF)`. -/
def CPU.SetHL (cpu : CPU) (value : Nat) : CPU :=
  let cpu := { cpu with H := (value >>> 8) % 256 }
  { cpu with L := (value &&& 0xFF) % 256 }

/-- The call `cpu.GetHL()` through the pointer receiver, with the CPU made
explicit: the value returned and the CPU after the call. The body of `GetHL`
holds no assignment. -/
def CPU.callGetHL (cpu : CPU) : Nat × CPU :=
  (cpu.GetHL, cpu)

/-! ## Construction -/

/-- The builtin `make([]uint8, n)`: `n` zero bytes, capacity `n`. -/
def makeBytes (n : Nat) : ByteSlice :=
  { elems := List.replicate n 0, len := n }

/-- The builtin `copy(dst, src)`: the first `min(len(dst), len(src))` bytes of
`dst` become those of `src`. -/
def copyBytes (dst : ByteSlice) (src : List Nat) : ByteSlice :=
  let n := min dst.len src.length
  { dst with elems := src.take n ++ dst.elems.drop n }

/-- The zero value `CPU{}`. -/
def CPU.zero : CPU :=
  { A := 0, B := 0, C := 0, D := 0, E := 0, H := 0, L := 0, SP := 0, PC := 0,
    Flags := { Z := false, N := false, H := false, C := false } }

/-- The function `NewGameboy`; `readFile` is the outcome of `os.ReadFile(romPath)`:
the bytes of the file, or the text of the error. -/
def NewGameboy (readFile : Except String (List Nat)) : Except String Gameboy :=
  match readFile with
  | .error err => .error ("failed to read rom: " ++ err)
  | .ok rom =>
    let memory := makeBytes MemorySize
    let memory := copyBytes memory rom
    .ok { Memory := memory, CPU := { CPU.zero with PC := EntryPoint } }

/-! ## The execution loop -/

/-- The verb `%x` of `fmt` on an unsigned integer: lower-case hexadecimal digits,
no leading zeros. -/
def fmtHex (n : Nat) : String := String.mk (Nat.toDigits 16 n)

/-- The error value `fmt.Errorf("unsupported opcode: 0x%x", opcode)`. -/
def unsupportedOpcode (opcode : Nat) : String :=
  "unsupported opcode: 0x" ++ fmtHex opcode

/-- The `switch opcode` of `Run`, with the operand already fetched. -/
def Gameboy.execute (g : Gameboy) (opcode operand : Nat) : Status × Gameboy :=
  let cpu := g.CPU
  if opcode = 0x00 then -- nop
    (.running, { g with CPU := { cpu with PC := (cpu.PC + 1) % 65536 } })
  else if opcode = 0xc3 then -- jp d16
    (.running, { g with CPU := { cpu with PC := operand } })
  else if opcode = 0xaf then -- xor A,A
    let cpu := { cpu with PC := (cpu.PC + 1) % 65536 }
    (.running, { g with CPU := { cpu with A := 0 } })
  else if opcode = 0x21 then -- ld HL,d16
    let cpu := { cpu with PC := (cpu.PC + 3) % 65536 }
    (.running, { g with CPU := cpu.SetHL operand })
  else
    (.returned (unsupportedOpcode opcode), g)

/-- One iteration of the `for` loop of `Run`: fetch the opcode at `pc`, fetch
the operand from `g.Memory[pc+1 : pc+3]` (both bounds are `uint16` sums), then
dispatch. A panic leaves the state as it was when it was raised. -/
def Gameboy.cycle (g : Gameboy) : Status × Gameboy :=
  let pc := g.CPU.PC
  match g.Memory.index pc with
  | .error p => (.panicked p, g)
  | .ok opcode =>
    match g.Memory.slice ((pc + 1) % 65536) ((pc + 3) % 65536) with
    | .error p => (.panicked p, g)
    | .ok bytes =>
      match LittleEndian.Uint16 bytes with
      | .error p => (.panicked p, g)
      | .ok operand => g.execute opcode operand

/-- The method `Run`, cut after at most `n` cycles: the status is `running` when
all `n` cycles completed, else what stopped the loop. -/
def Gameboy.Run : Nat → Gameboy → Status × Gameboy
  | 0, g => (.running, g)
  | n + 1, g =>
    match g.cycle with
    | (.running, g') => Gameboy.Run n g'
    | stopped => stopped

/-! ## Reading an error back -/

/-- Value of one lower-case hexadecimal digit. -/
def hexDigitValue (c : Char) : Nat :=
  if c.toNat < 58 then c.toNat - 48 else c.toNat - 87

/-- Value of a string of lower-case hexadecimal digits. -/
def hexValue (cs : List Char) : Nat :=
  cs.foldl (fun acc c => acc * 16 + hexDigitValue c) 0

/-- The opcode named by an unsupported-opcode error: the hexadecimal number that
follows the 22 characters of `unsupported opcode: 0x`. -/
def opcodeOfError (err : String) : Nat :=
  hexValue (err.data.drop 22)

/-! ## Concrete memories

Memories of the shape zeros, bytes, zeros, bytes, used to run the model on
concrete states. -/

/-- The memory holding `a` zero bytes, then the bytes `p`, then `b` zero bytes,
then the bytes `q`; its capacity is its length. -/
def memoryImage (a : Nat) (p : List Nat) (b : Nat) (q : List Nat) : ByteSlice :=
  { elems := List.replicate a 0 ++ (p ++ (List.replicate b 0 ++ q)),
    len := a + p.length + b + q.length }

/-- The state with memory `m` and program counter `pc` in which every other
register holds a value of its own and the flags are Z=false, N=true, H=false,
C=true. -/
def stateAt (m : ByteSlice) (pc : Nat) : Gameboy :=
  { Memory := m,
    CPU := { A := 0x5A, B := 0x0B, C := 0x0C, D := 0x0D, E := 0x0E, H := 0x48, L := 0x4C,
             SP := 0xFFFE, PC := pc,
             Flags := { Z := false, N := true, H := false, C := true } } }

/-- The state `NewGameboy` returns for a ROM of 0x100 zero bytes followed by the
bytes `prog`: the program at the entry point, PC at the entry point, every other
register zero and every flag false. -/
def entryState (prog : List Nat) : Gameboy :=
  { Memory := memoryImage EntryPoint prog (MemorySize - EntryPoint - prog.length) [],
    CPU := { CPU.zero with PC := EntryPoint } }

/-! ## The loop program

The image `21 34 12 AF 00 C3 00 01` at the entry point: `ld HL,0x1234`,
`xor A,A`, `nop`, `jp 0x0100`. -/

/-- The memory holds the eight bytes of the loop program at 0x0100..0x0107. -/
def LoopImage (m : ByteSlice) : Prop :=
  m.index 0x100 = .ok 0x21 ∧ m.index 0x101 = .ok 0x34 ∧ m.index 0x102 = .ok 0x12 ∧
  m.index 0x103 = .ok 0xAF ∧ m.index 0x104 = .ok 0x00 ∧ m.index 0x105 = .ok 0xC3 ∧
  m.index 0x106 = .ok 0x00 ∧ m.index 0x107 = .ok 0x01

/-- The program counter of the loop program after `n` cycles. -/
def loopPC (n : Nat) : Nat :=
  if n % 4 = 0 then 0x100 else if n % 4 = 1 then 0x103 else if n % 4 = 2 then 0x104 else 0x105

/-- The registers of the loop program after `n` cycles: PC follows `loopPC`, H:L
is loaded once a cycle has run, A is zero once two cycles have run. -/
def LoopInv (n : Nat) (cpu : CPU) : Prop :=
  cpu.PC = loopPC n ∧ (1 ≤ n → cpu.H = 0x12 ∧ cpu.L = 0x34) ∧ (2 ≤ n → cpu.A = 0)

/-! ## Arithmetic of bytes and words -/

theorem and_255_eq_mod (v : Nat) : v &&& 255 = v % 256 :=
  Nat.and_pow_two_sub_one_eq_mod v 8

theorem shl8_or_eq_add (a b : Nat) (hb : b < 256) : a <<< 8 ||| b = a * 256 + b := by
  have h := Nat.mul_add_lt_is_or (i := 8) (b := b) (by simpa using hb) a
  rw [Nat.shiftLeft_eq]
  have e : (2 : Nat) ^ 8 = 256 := by norm_num
  rw [e] at h ⊢
  rw [Nat.mul_comm a 256, ← h]

theorem or_shl8_eq_add (a b : Nat) (hb : b < 256) : b ||| a <<< 8 = a * 256 + b := by
  rw [Nat.lor_comm, shl8_or_eq_add a b hb]

theorem shl8_mod_word (hi : Nat) (hhi : hi < 256) : (hi <<< 8) % 65536 = hi <<< 8 := by
  rw [Nat.shiftLeft_eq]; norm_num; omega

/-- The word `lo | hi<<8` built from two bytes is `hi * 256 + lo`; the shift does
not leave 16 bits. -/
theorem word_of_bytes (lo hi : Nat) (hlo : lo < 256) (hhi : hi < 256) :
    lo ||| (hi <<< 8) % 65536 = lo ||| hi <<< 8 ∧ lo ||| hi <<< 8 = hi * 256 + lo ∧
      lo ||| hi <<< 8 < 65536 := by
  have h1 : (hi <<< 8) % 65536 = hi <<< 8 := by
    rw [Nat.shiftLeft_eq]; norm_num; omega
  rw [h1, or_shl8_eq_add hi lo hlo]
  refine ⟨rfl, rfl, ?_⟩
  omega

/-! ## The text of the unsupported-opcode error -/

set_option maxRecDepth 100000 in
theorem hexValue_toDigits : ∀ n < 256, hexValue (Nat.toDigits 16 n) = n := by
  decide

/-- The opcode of a byte is read back from its error. -/
theorem opcodeOfError_unsupportedOpcode (op : Nat) (h : op < 256) :
    opcodeOfError (unsupportedOpcode op) = op := by
  have e : (unsupportedOpcode op).data.drop 22 = Nat.toDigits 16 op := by
    simp [unsupportedOpcode, fmtHex]
  rw [opcodeOfError, e]
  exact hexValue_toDigits op h

/-- Two bytes with the same error are the same byte. -/
theorem unsupportedOpcode_injective {a b : Nat} (ha : a < 256) (hb : b < 256)
    (h : unsupportedOpcode a = unsupportedOpcode b) : a = b := by
  rw [← opcodeOfError_unsupportedOpcode a ha, ← opcodeOfError_unsupportedOpcode b hb, h]

/-! ## Lemmas on slices -/

theorem ByteSlice.index_of_lt (s : ByteSlice) (hs : s.WellTyped) (i : Nat) (hi : i < s.len) :
    ∃ b, s.index i = .ok b ∧ b < 256 := by
  have hlt : i < s.elems.length := Nat.lt_of_lt_of_le hi hs.1
  refine ⟨s.elems[i], ?_, hs.2 _ (List.getElem_mem hlt)⟩
  simp [ByteSlice.index, hi, List.getElem?_eq_getElem hlt]

theorem ByteSlice.index_ok_elems {s : ByteSlice} {i b : Nat} (h : s.index i = .ok b) :
    i < s.len ∧ s.elems[i]? = some b := by
  unfold ByteSlice.index at h
  split at h
  · rename_i hi
    refine ⟨hi, ?_⟩
    split at h
    · rename_i x hx
      simp only [Except.ok.injEq] at h
      rw [hx, h]
    · simp at h
  · simp at h

theorem ByteSlice.index_lt_256 {s : ByteSlice} (hs : s.WellTyped) {i b : Nat}
    (h : s.index i = .ok b) : b < 256 :=
  hs.2 b (List.getElem?_mem (ByteSlice.index_ok_elems h).2)

/-- With 65536 bytes and `pc <= 0xFFFC` the slice expression `Memory[pc+1 : pc+3]`
is in bounds and is the two bytes after `pc`. -/
theorem ByteSlice.slice_fetch (s : ByteSlice) (hs : s.WellTyped) (hlen : s.len = 65536)
    (pc : Nat) (hpc : pc ≤ 0xFFFC) :
    s.slice ((pc + 1) % 65536) ((pc + 3) % 65536) =
      .ok { elems := s.elems.drop (pc + 1), len := 2 } := by
  have hcap : 65536 ≤ s.elems.length := hlen ▸ hs.1
  have h1 : (pc + 1) % 65536 = pc + 1 := Nat.mod_eq_of_lt (by omega)
  have h3 : (pc + 3) % 65536 = pc + 3 := Nat.mod_eq_of_lt (by omega)
  have hc : pc + 3 ≤ s.cap ∧ pc + 1 ≤ pc + 3 := ⟨by unfold ByteSlice.cap; omega, by omega⟩
  rw [h1, h3, ByteSlice.slice, if_pos hc]
  congr 2
  omega

/-- The two bytes of a slice `Memory[k : k+2]` decode, low byte first. -/
theorem LittleEndian.Uint16_fetch (s : ByteSlice) (k lo hi : Nat)
    (hlo : s.index k = .ok lo) (hhi : s.index (k + 1) = .ok hi) :
    LittleEndian.Uint16 { elems := s.elems.drop k, len := 2 } =
      .ok (lo ||| (hi <<< 8) % 65536) := by
  have e0 : (s.elems.drop k)[0]? = some lo := by
    rw [List.getElem?_drop]; exact (ByteSlice.index_ok_elems hlo).2
  have e1 : (s.elems.drop k)[1]? = some hi := by
    rw [List.getElem?_drop]; exact (ByteSlice.index_ok_elems hhi).2
  simp [LittleEndian.Uint16, ByteSlice.index, e0, e1, bind, Except.bind, pure, Except.pure]

/-- With 65536 bytes and `pc <= 0xFFFC` the fetch succeeds and the cycle is the
dispatch on the opcode at `pc` and the little-endian word after it. -/
theorem Gameboy.cycle_eq_execute (g : Gameboy) (hmem : g.Memory.WellTyped)
    (hlen : g.Memory.len = 65536) (hpc : g.CPU.PC ≤ 0xFFFC) {op lo hi : Nat}
    (hop : g.Memory.index g.CPU.PC = .ok op)
    (hlo : g.Memory.index (g.CPU.PC + 1) = .ok lo)
    (hhi : g.Memory.index (g.CPU.PC + 2) = .ok hi) :
    g.cycle = g.execute op (lo ||| (hi <<< 8) % 65536) := by
  simp only [Gameboy.cycle, hop, ByteSlice.slice_fetch g.Memory hmem hlen g.CPU.PC hpc,
    LittleEndian.Uint16_fetch g.Memory (g.CPU.PC + 1) lo hi hlo hhi]

/-- With 65536 bytes and `pc <= 0xFFFC` the cycle is the dispatch on the opcode
at `pc` with some 16-bit operand. -/
theorem Gameboy.cycle_eq_execute_some (g : Gameboy) (hmem : g.Memory.WellTyped)
    (hlen : g.Memory.len = 65536) (hpc : g.CPU.PC ≤ 0xFFFC) {op : Nat}
    (hop : g.Memory.index g.CPU.PC = .ok op) :
    ∃ operand, g.cycle = g.execute op operand := by
  obtain ⟨lo, hlo, _⟩ := g.Memory.index_of_lt hmem (g.CPU.PC + 1) (by omega)
  obtain ⟨hi, hhi, _⟩ := g.Memory.index_of_lt hmem (g.CPU.PC + 2) (by omega)
  exact ⟨_, g.cycle_eq_execute hmem hlen hpc hop hlo hhi⟩

/-! ## Lemmas on concrete memories -/

theorem memoryImage_wellTyped (a : Nat) (p : List Nat) (b : Nat) (q : List Nat)
    (hp : ∀ x ∈ p, x < 256) (hq : ∀ x ∈ q, x < 256) : (memoryImage a p b q).WellTyped := by
  constructor
  · simp only [memoryImage, List.length_append, List.length_replicate]
    omega
  · intro x hx
    simp only [memoryImage, List.mem_append, List.mem_replicate] at hx
    rcases hx with ⟨_, rfl⟩ | hx | ⟨_, rfl⟩ | hx
    · omega
    · exact hp x hx
    · omega
    · exact hq x hx

/-- Reading inside the first block of bytes. -/
theorem memoryImage_index_fst (a : Nat) {p : List Nat} (b : Nat) (q : List Nat) {i x : Nat}
    (h : p[i]? = some x) : (memoryImage a p b q).index (a + i) = .ok x := by
  obtain ⟨hi, hx⟩ := List.getElem?_eq_some.1 h
  have hlen : a + i < a + p.length + b + q.length := by omega
  have e : (List.replicate a 0 ++ (p ++ (List.replicate b 0 ++ q)))[a + i]? = some x := by
    rw [List.getElem?_append_right (by simp), List.length_replicate, Nat.add_sub_cancel_left,
      List.getElem?_append_left hi]
    exact h
  simp only [ByteSlice.index, memoryImage, hlen, if_true, e]

/-- Reading inside the second block of bytes. -/
theorem memoryImage_index_snd (a : Nat) (p : List Nat) (b : Nat) {q : List Nat} {i x : Nat}
    (h : q[i]? = some x) : (memoryImage a p b q).index (a + p.length + b + i) = .ok x := by
  obtain ⟨hi, hx⟩ := List.getElem?_eq_some.1 h
  have hlen : a + p.length + b + i < a + p.length + b + q.length := by omega
  have e : (List.replicate a 0 ++ (p ++ (List.replicate b 0 ++ q)))[a + p.length + b + i]?
      = some x := by
    rw [List.getElem?_append_right (by simp; omega), List.length_replicate,
      List.getElem?_append_right (by omega),
      List.getElem?_append_right (by simp; omega), List.length_replicate]
    have : a + p.length + b + i - a - p.length - b = i := by omega
    rw [this]
    exact h
  simp only [ByteSlice.index, memoryImage, hlen, if_true, e]

/-- Reading inside the zero bytes between the two blocks. -/
theorem memoryImage_index_gap (a : Nat) (p : List Nat) (b : Nat) (q : List Nat) {i : Nat}
    (h : i < b) : (memoryImage a p b q).index (a + p.length + i) = .ok 0 := by
  have hlen : a + p.length + i < a + p.length + b + q.length := by omega
  have e : (List.replicate a 0 ++ (p ++ (List.replicate b 0 ++ q)))[a + p.length + i]?
      = some 0 := by
    rw [List.getElem?_append_right (by simp; omega), List.length_replicate,
      List.getElem?_append_right (by omega),
      List.getElem?_append_left (by simp; omega)]
    exact List.getElem?_replicate_of_lt (by omega)
  simp only [ByteSlice.index, memoryImage, hlen, if_true, e]

/-- The state `entryState prog` is the one `NewGameboy` returns when the file read
is 0x100 zero bytes followed by `prog`. -/
theorem NewGameboy_eq_entryState (prog : List Nat)
    (hprog : prog.length ≤ MemorySize - EntryPoint) :
    NewGameboy (.ok (List.replicate EntryPoint 0 ++ prog)) = .ok (entryState prog) := by
  have hlen : (List.replicate EntryPoint 0 ++ prog).length = EntryPoint + prog.length := by
    rw [List.length_append, List.length_replicate]
  have hmin : min MemorySize (EntryPoint + prog.length) = EntryPoint + prog.length := by
    have : EntryPoint ≤ MemorySize := by decide
    omega
  have hsum : EntryPoint + prog.length + (MemorySize - EntryPoint - prog.length) + 0
      = MemorySize := by
    have : EntryPoint ≤ MemorySize := by decide
    omega
  have htake : (List.replicate EntryPoint 0 ++ prog).take (EntryPoint + prog.length)
      = List.replicate EntryPoint 0 ++ prog :=
    List.take_of_length_le (Nat.le_of_eq hlen)
  have hdrop : (List.replicate MemorySize 0).drop (EntryPoint + prog.length)
      = List.replicate (MemorySize - EntryPoint - prog.length) 0 := by
    rw [List.drop_replicate, Nat.sub_sub]
  simp only [NewGameboy, entryState, makeBytes, copyBytes, memoryImage, List.length_nil,
    hlen, hmin, hsum, htake, hdrop, List.append_assoc, List.append_nil]

/-! ## The effect of one cycle, opcode by opcode -/

/-- Opcode 0x00: the cycle goes on with PC advanced by 1. -/
theorem Gameboy.cycle_nop (g : Gameboy) (hmem : g.Memory.WellTyped)
    (hlen : g.Memory.len = 65536) (hpc : g.CPU.PC ≤ 0xFFFC)
    (hop : g.Memory.index g.CPU.PC = .ok 0x00) :
    g.cycle = (.running, { g with CPU := { g.CPU with PC := g.CPU.PC + 1 } }) := by
  obtain ⟨operand, h⟩ := g.cycle_eq_execute_some hmem hlen hpc hop
  have e : (g.CPU.PC + 1) % 65536 = g.CPU.PC + 1 := Nat.mod_eq_of_lt (by omega)
  rw [h]
  simp [Gameboy.execute, e]

/-- Opcode 0xAF: the cycle goes on with PC advanced by 1 and A set to 0. -/
theorem Gameboy.cycle_xor (g : Gameboy) (hmem : g.Memory.WellTyped)
    (hlen : g.Memory.len = 65536) (hpc : g.CPU.PC ≤ 0xFFFC)
    (hop : g.Memory.index g.CPU.PC = .ok 0xAF) :
    g.cycle = (.running, { g with CPU := { g.CPU with PC := g.CPU.PC + 1, A := 0 } }) := by
  obtain ⟨operand, h⟩ := g.cycle_eq_execute_some hmem hlen hpc hop
  have e : (g.CPU.PC + 1) % 65536 = g.CPU.PC + 1 := Nat.mod_eq_of_lt (by omega)
  rw [h]
  simp [Gameboy.execute, e]

/-- Opcode 0xC3: the cycle goes on with PC set to the operand. -/
theorem Gameboy.cycle_jp (g : Gameboy) (hmem : g.Memory.WellTyped)
    (hlen : g.Memory.len = 65536) (hpc : g.CPU.PC ≤ 0xFFFC) {lo hi : Nat}
    (hop : g.Memory.index g.CPU.PC = .ok 0xC3)
    (hlo : g.Memory.index (g.CPU.PC + 1) = .ok lo)
    (hhi : g.Memory.index (g.CPU.PC + 2) = .ok hi) :
    g.cycle = (.running, { g with CPU := { g.CPU with PC := lo ||| hi <<< 8 } }) := by
  have hw := word_of_bytes lo hi (ByteSlice.index_lt_256 hmem hlo)
    (ByteSlice.index_lt_256 hmem hhi)
  rw [g.cycle_eq_execute hmem hlen hpc hop hlo hhi, hw.1]
  simp [Gameboy.execute]

/-- Opcode 0x21: the cycle goes on with PC advanced by 3 and H, L set to the
high and low operand bytes. -/
theorem Gameboy.cycle_ld (g : Gameboy) (hmem : g.Memory.WellTyped)
    (hlen : g.Memory.len = 65536) (hpc : g.CPU.PC ≤ 0xFFFC) {lo hi : Nat}
    (hop : g.Memory.index g.CPU.PC = .ok 0x21)
    (hlo : g.Memory.index (g.CPU.PC + 1) = .ok lo)
    (hhi : g.Memory.index (g.CPU.PC + 2) = .ok hi) :
    g.cycle = (.running, { g with CPU := { g.CPU with PC := g.CPU.PC + 3, H := hi, L := lo } }) := by
  have hlo' := ByteSlice.index_lt_256 hmem hlo
  have hhi' := ByteSlice.index_lt_256 hmem hhi
  have hw := word_of_bytes lo hi hlo' hhi'
  have e : (g.CPU.PC + 3) % 65536 = g.CPU.PC + 3 := Nat.mod_eq_of_lt (by omega)
  have eH : ((lo ||| hi <<< 8) >>> 8) % 256 = hi := by
    rw [hw.2.1, Nat.shiftRight_eq_div_pow]; norm_num; omega
  have eL : ((lo ||| hi <<< 8) &&& 0xFF) % 256 = lo := by
    rw [hw.2.1, and_255_eq_mod]; omega
  rw [g.cycle_eq_execute hmem hlen hpc hop hlo hhi, hw.1]
  simp [Gameboy.execute, CPU.SetHL, e, eH, eL]

/-- Any other opcode: `Run` returns the error and the state is untouched. -/
theorem Gameboy.cycle_unsupported (g : Gameboy) (hmem : g.Memory.WellTyped)
    (hlen : g.Memory.len = 65536) (hpc : g.CPU.PC ≤ 0xFFFC) {op : Nat}
    (hop : g.Memory.index g.CPU.PC = .ok op)
    (h00 : op ≠ 0x00) (hc3 : op ≠ 0xC3) (haf : op ≠ 0xAF) (h21 : op ≠ 0x21) :
    g.cycle = (.returned (unsupportedOpcode op), g) := by
  obtain ⟨operand, h⟩ := g.cycle_eq_execute_some hmem hlen hpc hop
  rw [h]
  simp [Gameboy.execute, h00, hc3, haf, h21]

/-! ## The fetch at the top of the address space -/

theorem memoryImage_cap (a : Nat) (p : List Nat) (b : Nat) (q : List Nat) :
    (memoryImage a p b q).cap = a + p.length + b + q.length := by
  simp only [ByteSlice.cap, memoryImage, List.length_append, List.length_replicate]
  omega

/-- At PC = 0xFFFD and PC = 0xFFFE the `uint16` sum `pc+3` wraps below `pc+1`, and
the slice expression `Memory[pc+1 : pc+3]` panics, whatever the opcode. -/
theorem Gameboy.cycle_slice_panics (g : Gameboy)
    (hpc : g.CPU.PC = 0xFFFD ∨ g.CPU.PC = 0xFFFE) {op : Nat}
    (hop : g.Memory.index g.CPU.PC = .ok op) :
    g.cycle = (.panicked (.sliceBoundsOutOfRange (g.CPU.PC + 1) (g.CPU.PC + 3 - 65536)
      g.Memory.cap), g) := by
  have h1 : (g.CPU.PC + 1) % 65536 = g.CPU.PC + 1 := by omega
  have h3 : (g.CPU.PC + 3) % 65536 = g.CPU.PC + 3 - 65536 := by omega
  have hc : ¬ (g.CPU.PC + 3 - 65536 ≤ g.Memory.cap ∧ g.CPU.PC + 1 ≤ g.CPU.PC + 3 - 65536) := by
    omega
  simp only [Gameboy.cycle, hop, h1, h3, ByteSlice.slice, if_neg hc]

/-- At PC = 0xFFFF the `uint16` sums `pc+1` and `pc+3` wrap to 0 and 2: the slice
expression is `Memory[0:2]` and the operand is read at addresses 0 and 1. -/
theorem Gameboy.cycle_wraps_at_top (g : Gameboy) (hmem : g.Memory.WellTyped)
    (hlen : g.Memory.len = 65536) (hpc : g.CPU.PC = 0xFFFF) {op lo hi : Nat}
    (hop : g.Memory.index g.CPU.PC = .ok op)
    (hlo : g.Memory.index 0 = .ok lo) (hhi : g.Memory.index 1 = .ok hi) :
    g.cycle = g.execute op (lo ||| (hi <<< 8) % 65536) := by
  have hcap : 65536 ≤ g.Memory.elems.length := hlen ▸ hmem.1
  have h1 : (g.CPU.PC + 1) % 65536 = 0 := by omega
  have h3 : (g.CPU.PC + 3) % 65536 = 2 := by omega
  have hc : 2 ≤ g.Memory.cap ∧ 0 ≤ 2 := ⟨by unfold ByteSlice.cap; omega, by omega⟩
  have hs : g.Memory.slice 0 2 = .ok { elems := g.Memory.elems.drop 0, len := 2 } := by
    rw [ByteSlice.slice, if_pos hc]
  simp only [Gameboy.cycle, hop, h1, h3, hs,
    LittleEndian.Uint16_fetch g.Memory 0 lo hi hlo hhi]

/-! ## Cycles that return an error -/

/-- The dispatch on an opcode outside the four cases returns the error and leaves
the state as it is. -/
theorem Gameboy.execute_unsupported (g : Gameboy) (op operand : Nat)
    (h00 : op ≠ 0x00) (hc3 : op ≠ 0xC3) (haf : op ≠ 0xAF) (h21 : op ≠ 0x21) :
    g.execute op operand = (.returned (unsupportedOpcode op), g) := by
  simp [Gameboy.execute, h00, hc3, haf, h21]

/-- The dispatch returns an error only in the default case, and the error is the
one of the opcode. -/
theorem Gameboy.execute_returned {g : Gameboy} {op operand : Nat} {e : String}
    (h : (g.execute op operand).1 = .returned e) :
    op ≠ 0x00 ∧ op ≠ 0xC3 ∧ op ≠ 0xAF ∧ op ≠ 0x21 ∧ e = unsupportedOpcode op := by
  simp only [Gameboy.execute] at h
  split_ifs at h with h00 hc3 haf h21
  exact ⟨h00, hc3, haf, h21, (Status.returned.inj h).symm⟩

/-- A cycle that returns an error, at whatever PC and in whatever memory, read its
opcode at PC, found it outside the four cases, and returns the error of that
opcode. -/
theorem Gameboy.cycle_returned {g : Gameboy} {e : String} (h : g.cycle.1 = .returned e) :
    ∃ op, g.Memory.index g.CPU.PC = .ok op ∧
      op ≠ 0x00 ∧ op ≠ 0xC3 ∧ op ≠ 0xAF ∧ op ≠ 0x21 ∧ e = unsupportedOpcode op := by
  simp only [Gameboy.cycle] at h
  split at h
  · exact absurd h (by simp)
  · rename_i op hop
    split at h
    · exact absurd h (by simp)
    · split at h
      · exact absurd h (by simp)
      · exact ⟨op, hop, Gameboy.execute_returned h⟩

/-! ## The register pair H:L -/

/-- C1: for every CPU state and every 16-bit value `v`, `SetHL(v)` followed by
`GetHL()` returns exactly `v`, and after `SetHL(v)` the register H is `v >> 8` and
the register L is `v & 0xFF`. -/
theorem setHL_getHL_roundtrip (cpu : CPU) (v : Nat) (hv : v < 65536) :
    (cpu.SetHL v).GetHL = v ∧ (cpu.SetHL v).H = v >>> 8 ∧ (cpu.SetHL v).L = v &&& 0xFF := by
  have eH : (v >>> 8) % 256 = v >>> 8 := by
    rw [Nat.shiftRight_eq_div_pow]; norm_num; omega
  have eL : (v &&& 0xFF) % 256 = v &&& 0xFF := by
    rw [and_255_eq_mod]; omega
  refine ⟨?_, eH, eL⟩
  show (((v >>> 8) % 256) <<< 8) % 65536 ||| (v &&& 0xFF) % 256 = v
  have e16 : ((v >>> 8) <<< 8) % 65536 = (v >>> 8) <<< 8 := by
    rw [Nat.shiftLeft_eq, Nat.shiftRight_eq_div_pow]; norm_num; omega
  rw [eH, eL, e16, and_255_eq_mod, shl8_or_eq_add _ _ (by omega), Nat.shiftRight_eq_div_pow]
  norm_num
  omega

/-- C1 at `v = 0x1234` on the zero CPU: the pair reads back 0x1234, H is 0x12 and
L is 0x34. -/
theorem setHL_getHL_roundtrip_witness :
    (CPU.zero.SetHL 0x1234).GetHL = 0x1234 ∧ (CPU.zero.SetHL 0x1234).H = 0x12 ∧
      (CPU.zero.SetHL 0x1234).L = 0x34 :=
  setHL_getHL_roundtrip CPU.zero 0x1234 (by decide)

/-! ## Opcode 0xAF: xor A,A -/

/-- C2: the case `0xaf` (commented `xor A,A`) writes no flag. `NewGameboy`, given a
ROM with the byte 0xAF at the entry point, returns a state with all flags false;
from it one cycle of `Run` completes, sets A to 0 and leaves Z false, where the
instruction is to leave Z=true, N=false, H=false, C=false. -/
theorem cycle_xor_leaves_flags :
    NewGameboy (.ok (List.replicate 0x100 0 ++ [0xAF])) = .ok (entryState [0xAF]) ∧
      (entryState [0xAF]).Memory.len = 65536 ∧ (entryState [0xAF]).CPU.PC = 0x100 ∧
      (entryState [0xAF]).Memory.index 0x100 = .ok 0xAF ∧
      (entryState [0xAF]).cycle.1 = .running ∧
      (entryState [0xAF]).cycle.2.CPU.A = 0 ∧
      (entryState [0xAF]).cycle.2.CPU.Flags = { Z := false, N := false, H := false, C := false } := by
  have hop : (entryState [0xAF]).Memory.index (entryState [0xAF]).CPU.PC = .ok 0xAF :=
    memoryImage_index_fst EntryPoint _ [] (i := 0) rfl
  have h := (entryState [0xAF]).cycle_xor
    (memoryImage_wellTyped _ _ _ _ (by decide) (by decide)) rfl (by decide) hop
  rw [h]
  exact ⟨NewGameboy_eq_entryState [0xAF] (by decide), rfl, rfl, hop, rfl, rfl, rfl⟩

/-- C3: with 65536 bytes of memory, `PC <= 0xFFFC` and the byte 0xAF at PC, one
cycle of `Run` completes, sets A to 0 whatever A held, advances PC by exactly 1,
and leaves B, C, D, E, H, L, SP and the whole memory unchanged. -/
theorem cycle_xor_sets_a_zero (g : Gameboy) (hmem : g.Memory.WellTyped)
    (hlen : g.Memory.len = 65536) (hpc : g.CPU.PC ≤ 0xFFFC)
    (hop : g.Memory.index g.CPU.PC = .ok 0xAF) :
    g.cycle.1 = .running ∧ g.cycle.2.CPU.A = 0 ∧ g.cycle.2.CPU.PC = g.CPU.PC + 1 ∧
      g.cycle.2.CPU.B = g.CPU.B ∧ g.cycle.2.CPU.C = g.CPU.C ∧ g.cycle.2.CPU.D = g.CPU.D ∧
      g.cycle.2.CPU.E = g.CPU.E ∧ g.cycle.2.CPU.H = g.CPU.H ∧ g.cycle.2.CPU.L = g.CPU.L ∧
      g.cycle.2.CPU.SP = g.CPU.SP ∧ g.cycle.2.Memory = g.Memory := by
  rw [g.cycle_xor hmem hlen hpc hop]
  simp

/-- C3 on a state with A = 0x5A and the byte 0xAF at PC = 0x0100: after the cycle
A is 0, PC is 0x0101 and SP is still 0xFFFE. -/
theorem cycle_xor_sets_a_zero_witness :
    (stateAt (memoryImage 0x100 [0xAF] 0xFEFF []) 0x100).CPU.A = 0x5A ∧
      (stateAt (memoryImage 0x100 [0xAF] 0xFEFF []) 0x100).cycle.2.CPU.A = 0 ∧
      (stateAt (memoryImage 0x100 [0xAF] 0xFEFF []) 0x100).cycle.2.CPU.PC = 0x101 ∧
      (stateAt (memoryImage 0x100 [0xAF] 0xFEFF []) 0x100).cycle.2.CPU.SP = 0xFFFE := by
  have h := cycle_xor_sets_a_zero (stateAt (memoryImage 0x100 [0xAF] 0xFEFF []) 0x100)
    (memoryImage_wellTyped _ _ _ _ (by decide) (by decide)) rfl (by decide)
    (memoryImage_index_fst 0x100 0xFEFF [] (i := 0) rfl)
  exact ⟨rfl, h.2.1, h.2.2.1, h.2.2.2.2.2.2.2.2.2.1⟩

/-! ## Unsupported opcodes -/

/-- C4: with 65536 bytes of memory, `PC <= 0xFFFC` and at PC a byte other than
0x00, 0xC3, 0xAF and 0x21, the cycle of `Run` fails with the unsupported-opcode
error and leaves the whole state (every register, PC included, every flag and
the memory) exactly as it was at the start of the cycle. -/
theorem cycle_unsupported_fails_unchanged (g : Gameboy) (hmem : g.Memory.WellTyped)
    (hlen : g.Memory.len = 65536) (hpc : g.CPU.PC ≤ 0xFFFC) (op : Nat)
    (hop : g.Memory.index g.CPU.PC = .ok op)
    (h00 : op ≠ 0x00) (hc3 : op ≠ 0xC3) (haf : op ≠ 0xAF) (h21 : op ≠ 0x21) :
    g.cycle.1 = .returned (unsupportedOpcode op) ∧ g.cycle.2 = g ∧
      g.cycle.2.CPU = g.CPU ∧ g.cycle.2.CPU.PC = g.CPU.PC ∧
      g.cycle.2.CPU.Flags = g.CPU.Flags ∧ g.cycle.2.Memory = g.Memory := by
  rw [g.cycle_unsupported hmem hlen hpc hop h00 hc3 haf h21]
  simp

/-- C4 on a state with the byte 0xFF at PC = 0x0100: the cycle returns the error
and the state is the one it started from. -/
theorem cycle_unsupported_fails_unchanged_witness :
    (stateAt (memoryImage 0x100 [0xFF] 0xFEFF []) 0x100).cycle =
      (.returned "unsupported opcode: 0xff", stateAt (memoryImage 0x100 [0xFF] 0xFEFF []) 0x100) := by
  have h := cycle_unsupported_fails_unchanged
    (stateAt (memoryImage 0x100 [0xFF] 0xFEFF []) 0x100)
    (memoryImage_wellTyped _ _ _ _ (by decide) (by decide)) rfl (by decide) 0xFF
    (memoryImage_index_fst 0x100 0xFEFF [] (i := 0) rfl)
    (by decide) (by decide) (by decide) (by decide)
  exact Prod.ext (h.1.trans (by decide)) h.2.1

/-- C5, as stated, fails: two states with the same memory (0xFF at addresses 0 and
1) that differ only in PC (0 and 1) both stop on the unsupported opcode 0xFF, and
`Run` reports the very same error for both; the error names the opcode and not
the program counter. -/
theorem unsupported_error_same_for_two_pcs :
    (stateAt (memoryImage 0 [0xFF, 0xFF] 0xFFFE []) 0).CPU.PC ≠
        (stateAt (memoryImage 0 [0xFF, 0xFF] 0xFFFE []) 1).CPU.PC ∧
      (stateAt (memoryImage 0 [0xFF, 0xFF] 0xFFFE []) 0).cycle.1 =
        .returned "unsupported opcode: 0xff" ∧
      (stateAt (memoryImage 0 [0xFF, 0xFF] 0xFFFE []) 1).cycle.1 =
        .returned "unsupported opcode: 0xff" := by
  have h0 := (stateAt (memoryImage 0 [0xFF, 0xFF] 0xFFFE []) 0).cycle_unsupported
    (memoryImage_wellTyped _ _ _ _ (by decide) (by decide)) rfl (by decide)
    (memoryImage_index_fst 0 0xFFFE [] (i := 0) rfl)
    (by decide) (by decide) (by decide) (by decide)
  have h1 := (stateAt (memoryImage 0 [0xFF, 0xFF] 0xFFFE []) 1).cycle_unsupported
    (memoryImage_wellTyped _ _ _ _ (by decide) (by decide)) rfl (by decide)
    (memoryImage_index_fst 0 0xFFFE [] (i := 1) rfl)
    (by decide) (by decide) (by decide) (by decide)
  refine ⟨by decide, ?_, ?_⟩
  · rw [h0]; decide
  · rw [h1]; decide

/-- C5, amended: the error with which `Run` stops on an unsupported opcode carries
the offending opcode and nothing else. For every two states whose cycle returns
an error, at whatever program counters: each error is the text of the opcode
byte at that state's PC, the two errors are equal exactly when the two opcode
bytes are equal, the opcode is read back from the error, and for the opcode
0xFF the error is `unsupported opcode: 0xff`. -/
theorem unsupported_error_names_opcode_only (g₁ g₂ : Gameboy)
    (hmem₁ : g₁.Memory.WellTyped) (hmem₂ : g₂.Memory.WellTyped) (e₁ e₂ : String)
    (hfail₁ : g₁.cycle.1 = .returned e₁) (hfail₂ : g₂.cycle.1 = .returned e₂) :
    ∃ op₁ op₂, g₁.Memory.index g₁.CPU.PC = .ok op₁ ∧ g₂.Memory.index g₂.CPU.PC = .ok op₂ ∧
      e₁ = unsupportedOpcode op₁ ∧ e₂ = unsupportedOpcode op₂ ∧
      (g₁.cycle.1 = g₂.cycle.1 ↔ op₁ = op₂) ∧ (e₁ = e₂ ↔ op₁ = op₂) ∧
      opcodeOfError e₁ = op₁ ∧ opcodeOfError e₂ = op₂ ∧
      (op₁ = 0xFF → e₁ = "unsupported opcode: 0xff") := by
  obtain ⟨op₁, hop₁, _, _, _, _, he₁⟩ := Gameboy.cycle_returned hfail₁
  obtain ⟨op₂, hop₂, _, _, _, _, he₂⟩ := Gameboy.cycle_returned hfail₂
  have b₁ : op₁ < 256 := ByteSlice.index_lt_256 hmem₁ hop₁
  have b₂ : op₂ < 256 := ByteSlice.index_lt_256 hmem₂ hop₂
  have hiff : e₁ = e₂ ↔ op₁ = op₂ := by
    rw [he₁, he₂]
    exact ⟨fun h => unsupportedOpcode_injective b₁ b₂ h, fun h => by rw [h]⟩
  refine ⟨op₁, op₂, hop₁, hop₂, he₁, he₂, ?_, hiff, ?_, ?_, ?_⟩
  · rw [hfail₁, hfail₂]
    exact ⟨fun h => hiff.1 (Status.returned.inj h), fun h => by rw [hiff.2 h]⟩
  · rw [he₁]
    exact opcodeOfError_unsupportedOpcode op₁ b₁
  · rw [he₂]
    exact opcodeOfError_unsupportedOpcode op₂ b₂
  · intro h
    rw [he₁, h]
    decide

/-- C5, amended, on two states of one memory: PC = 0xFFFF over the byte 0xFF (the
operand fetch wraps to addresses 0 and 1) and PC = 0 over the byte 0xFE. Both
cycles return an error, the two errors differ, and the byte at 0xFFFF is the
opcode read back from the first error. -/
theorem unsupported_error_names_opcode_only_witness :
    (stateAt (memoryImage 0 [0xFE, 0x00] 0xFFFD [0xFF]) 0xFFFF).cycle.1 =
        .returned "unsupported opcode: 0xff" ∧
      (stateAt (memoryImage 0 [0xFE, 0x00] 0xFFFD [0xFF]) 0).cycle.1 =
        .returned "unsupported opcode: 0xfe" ∧
      (stateAt (memoryImage 0 [0xFE, 0x00] 0xFFFD [0xFF]) 0xFFFF).cycle.1 ≠
        (stateAt (memoryImage 0 [0xFE, 0x00] 0xFFFD [0xFF]) 0).cycle.1 ∧
      (stateAt (memoryImage 0 [0xFE, 0x00] 0xFFFD [0xFF]) 0xFFFF).Memory.index 0xFFFF =
        .ok (opcodeOfError "unsupported opcode: 0xff") := by
  have hm : (memoryImage 0 [0xFE, 0x00] 0xFFFD [0xFF]).WellTyped :=
    memoryImage_wellTyped _ _ _ _ (by decide) (by decide)
  have hop₁ : (stateAt (memoryImage 0 [0xFE, 0x00] 0xFFFD [0xFF]) 0xFFFF).Memory.index
      (stateAt (memoryImage 0 [0xFE, 0x00] 0xFFFD [0xFF]) 0xFFFF).CPU.PC = .ok 0xFF :=
    memoryImage_index_snd 0 [0xFE, 0x00] 0xFFFD (i := 0) rfl
  have hlo : (stateAt (memoryImage 0 [0xFE, 0x00] 0xFFFD [0xFF]) 0xFFFF).Memory.index 0
      = .ok 0xFE := memoryImage_index_fst 0 0xFFFD [0xFF] (i := 0) rfl
  have hhi : (stateAt (memoryImage 0 [0xFE, 0x00] 0xFFFD [0xFF]) 0xFFFF).Memory.index 1
      = .ok 0x00 := memoryImage_index_fst 0 0xFFFD [0xFF] (i := 1) rfl
  have hc₁ := (stateAt (memoryImage 0 [0xFE, 0x00] 0xFFFD [0xFF]) 0xFFFF).cycle_wraps_at_top
    hm rfl rfl hop₁ hlo hhi
  rw [Gameboy.execute_unsupported _ 0xFF _ (by decide) (by decide) (by decide) (by decide)]
    at hc₁
  have hfail₁ : (stateAt (memoryImage 0 [0xFE, 0x00] 0xFFFD [0xFF]) 0xFFFF).cycle.1 =
      .returned "unsupported opcode: 0xff" := by
    rw [hc₁]; decide
  have hc₂ := (stateAt (memoryImage 0 [0xFE, 0x00] 0xFFFD [0xFF]) 0).cycle_unsupported
    hm rfl (by decide) (memoryImage_index_fst 0 0xFFFD [0xFF] (i := 0) rfl)
    (by decide) (by decide) (by decide) (by decide)
  have hfail₂ : (stateAt (memoryImage 0 [0xFE, 0x00] 0xFFFD [0xFF]) 0).cycle.1 =
      .returned "unsupported opcode: 0xfe" := by
    rw [hc₂]; decide
  obtain ⟨op₁, op₂, h₁, h₂, _, _, hst, hiff, hb₁, _, _⟩ :=
    unsupported_error_names_opcode_only
      (stateAt (memoryImage 0 [0xFE, 0x00] 0xFFFD [0xFF]) 0xFFFF)
      (stateAt (memoryImage 0 [0xFE, 0x00] 0xFFFD [0xFF]) 0)
      hm hm "unsupported opcode: 0xff" "unsupported opcode: 0xfe" hfail₁ hfail₂
  refine ⟨hfail₁, hfail₂, ?_, ?_⟩
  · intro h
    exact absurd (hiff.2 (hst.1 h)) (by decide)
  · rw [hb₁]
    exact h₁

/-! ## Opcode 0xC3: jp d16 -/

/-- C6: with 65536 bytes of memory, `PC <= 0xFFFC` and the byte 0xC3 at PC, one
cycle of `Run` completes and sets PC to exactly the little-endian immediate
`memory[PC+1] | memory[PC+2] << 8`, with no relative advance added, and leaves
A, B, C, D, E, H, L, SP, the four flags and the whole memory unchanged. -/
theorem cycle_jp_sets_pc (g : Gameboy) (hmem : g.Memory.WellTyped)
    (hlen : g.Memory.len = 65536) (hpc : g.CPU.PC ≤ 0xFFFC)
    (hop : g.Memory.index g.CPU.PC = .ok 0xC3) :
    ∃ lo hi, g.Memory.index (g.CPU.PC + 1) = .ok lo ∧ g.Memory.index (g.CPU.PC + 2) = .ok hi ∧
      g.cycle.1 = .running ∧ g.cycle.2.CPU.PC = lo ||| hi <<< 8 ∧
      g.cycle.2.CPU.A = g.CPU.A ∧ g.cycle.2.CPU.B = g.CPU.B ∧ g.cycle.2.CPU.C = g.CPU.C ∧
      g.cycle.2.CPU.D = g.CPU.D ∧ g.cycle.2.CPU.E = g.CPU.E ∧ g.cycle.2.CPU.H = g.CPU.H ∧
      g.cycle.2.CPU.L = g.CPU.L ∧ g.cycle.2.CPU.SP = g.CPU.SP ∧
      g.cycle.2.CPU.Flags = g.CPU.Flags ∧ g.cycle.2.Memory = g.Memory := by
  obtain ⟨lo, hlo, _⟩ := g.Memory.index_of_lt hmem (g.CPU.PC + 1) (by omega)
  obtain ⟨hi, hhi, _⟩ := g.Memory.index_of_lt hmem (g.CPU.PC + 2) (by omega)
  refine ⟨lo, hi, hlo, hhi, ?_⟩
  rw [g.cycle_jp hmem hlen hpc hop hlo hhi]
  simp

/-- C6 on a state with the bytes 0xC3, 0x50, 0x01 at PC = 0x0100: after the cycle
PC is 0x0150. -/
theorem cycle_jp_sets_pc_witness :
    (stateAt (memoryImage 0x100 [0xC3, 0x50, 0x01] 0xFEFD []) 0x100).cycle.2.CPU.PC = 0x0150 := by
  obtain ⟨lo, hi, hlo, hhi, _, h, _⟩ := cycle_jp_sets_pc
    (stateAt (memoryImage 0x100 [0xC3, 0x50, 0x01] 0xFEFD []) 0x100)
    (memoryImage_wellTyped _ _ _ _ (by decide) (by decide)) rfl (by decide)
    (memoryImage_index_fst 0x100 0xFEFD [] (i := 0) rfl)
  have e1 : (memoryImage 0x100 [0xC3, 0x50, 0x01] 0xFEFD []).index (0x100 + 1) = .ok 0x50 :=
    memoryImage_index_fst 0x100 0xFEFD [] (i := 1) rfl
  have e2 : (memoryImage 0x100 [0xC3, 0x50, 0x01] 0xFEFD []).index (0x100 + 2) = .ok 0x01 :=
    memoryImage_index_fst 0x100 0xFEFD [] (i := 2) rfl
  have hlo' : lo = 0x50 := Except.ok.inj (hlo.symm.trans e1)
  have hhi' : hi = 0x01 := Except.ok.inj (hhi.symm.trans e2)
  rw [h, hlo', hhi']
  decide

/-! ## Opcode 0x21: ld HL,d16 -/

/-- C7: with 65536 bytes of memory, `PC <= 0xFFFC` and the byte 0x21 at PC, one
cycle of `Run` completes and makes the pair H:L exactly the little-endian
immediate `memory[PC+1] | memory[PC+2] << 8` (H is `memory[PC+2]`, L is
`memory[PC+1]`), leaves the four flags, A, B, C, D, E, SP and the whole memory
unchanged, and advances PC by exactly 3. -/
theorem cycle_ld_hl_loads_immediate (g : Gameboy) (hmem : g.Memory.WellTyped)
    (hlen : g.Memory.len = 65536) (hpc : g.CPU.PC ≤ 0xFFFC)
    (hop : g.Memory.index g.CPU.PC = .ok 0x21) :
    ∃ lo hi, g.Memory.index (g.CPU.PC + 1) = .ok lo ∧ g.Memory.index (g.CPU.PC + 2) = .ok hi ∧
      g.cycle.1 = .running ∧ g.cycle.2.CPU.GetHL = lo ||| hi <<< 8 ∧
      g.cycle.2.CPU.H = hi ∧ g.cycle.2.CPU.L = lo ∧
      g.cycle.2.CPU.Flags = g.CPU.Flags ∧
      g.cycle.2.CPU.A = g.CPU.A ∧ g.cycle.2.CPU.B = g.CPU.B ∧ g.cycle.2.CPU.C = g.CPU.C ∧
      g.cycle.2.CPU.D = g.CPU.D ∧ g.cycle.2.CPU.E = g.CPU.E ∧ g.cycle.2.CPU.SP = g.CPU.SP ∧
      g.cycle.2.Memory = g.Memory ∧ g.cycle.2.CPU.PC = g.CPU.PC + 3 := by
  obtain ⟨lo, hlo, _⟩ := g.Memory.index_of_lt hmem (g.CPU.PC + 1) (by omega)
  obtain ⟨hi, hhi, hhi'⟩ := g.Memory.index_of_lt hmem (g.CPU.PC + 2) (by omega)
  refine ⟨lo, hi, hlo, hhi, ?_⟩
  rw [g.cycle_ld hmem hlen hpc hop hlo hhi]
  simp [CPU.GetHL, shl8_mod_word hi hhi', Nat.lor_comm]

/-- C7 on a state with the bytes 0x21, 0x34, 0x12 at PC = 0x0100: after the cycle
H:L is 0x1234, H is 0x12, L is 0x34 and PC is 0x0103. -/
theorem cycle_ld_hl_loads_immediate_witness :
    (stateAt (memoryImage 0x100 [0x21, 0x34, 0x12] 0xFEFD []) 0x100).cycle.2.CPU.GetHL = 0x1234 ∧
      (stateAt (memoryImage 0x100 [0x21, 0x34, 0x12] 0xFEFD []) 0x100).cycle.2.CPU.H = 0x12 ∧
      (stateAt (memoryImage 0x100 [0x21, 0x34, 0x12] 0xFEFD []) 0x100).cycle.2.CPU.L = 0x34 ∧
      (stateAt (memoryImage 0x100 [0x21, 0x34, 0x12] 0xFEFD []) 0x100).cycle.2.CPU.PC = 0x103 := by
  obtain ⟨lo, hi, hlo, hhi, _, hHL, hH, hL, _, _, _, _, _, _, _, _, hPC⟩ :=
    cycle_ld_hl_loads_immediate
      (stateAt (memoryImage 0x100 [0x21, 0x34, 0x12] 0xFEFD []) 0x100)
      (memoryImage_wellTyped _ _ _ _ (by decide) (by decide)) rfl (by decide)
      (memoryImage_index_fst 0x100 0xFEFD [] (i := 0) rfl)
  have e1 : (memoryImage 0x100 [0x21, 0x34, 0x12] 0xFEFD []).index (0x100 + 1) = .ok 0x34 :=
    memoryImage_index_fst 0x100 0xFEFD [] (i := 1) rfl
  have e2 : (memoryImage 0x100 [0x21, 0x34, 0x12] 0xFEFD []).index (0x100 + 2) = .ok 0x12 :=
    memoryImage_index_fst 0x100 0xFEFD [] (i := 2) rfl
  have hlo' : lo = 0x34 := Except.ok.inj (hlo.symm.trans e1)
  have hhi' : hi = 0x12 := Except.ok.inj (hhi.symm.trans e2)
  subst hlo' hhi'
  exact ⟨hHL.trans (by decide), hH, hL, hPC⟩

/-! ## Opcode 0x00: nop -/

/-- C8: with 65536 bytes of memory, `PC <= 0xFFFC` and the byte 0x00 at PC, one
cycle of `Run` completes, leaves every register other than PC, the four flags
and the whole memory unchanged, and the new PC is the old PC plus exactly 1. -/
theorem cycle_nop_only_advances_pc (g : Gameboy) (hmem : g.Memory.WellTyped)
    (hlen : g.Memory.len = 65536) (hpc : g.CPU.PC ≤ 0xFFFC)
    (hop : g.Memory.index g.CPU.PC = .ok 0x00) :
    g.cycle.1 = .running ∧
      g.cycle.2.CPU.A = g.CPU.A ∧ g.cycle.2.CPU.B = g.CPU.B ∧ g.cycle.2.CPU.C = g.CPU.C ∧
      g.cycle.2.CPU.D = g.CPU.D ∧ g.cycle.2.CPU.E = g.CPU.E ∧ g.cycle.2.CPU.H = g.CPU.H ∧
      g.cycle.2.CPU.L = g.CPU.L ∧ g.cycle.2.CPU.SP = g.CPU.SP ∧
      g.cycle.2.CPU.Flags = g.CPU.Flags ∧ g.cycle.2.Memory = g.Memory ∧
      g.cycle.2.CPU.PC = g.CPU.PC + 1 := by
  rw [g.cycle_nop hmem hlen hpc hop]
  simp

/-- C8 on a state with the byte 0x00 at PC = 0x0100: after the cycle PC is 0x0101
and A, SP and the flags are as before. -/
theorem cycle_nop_only_advances_pc_witness :
    (stateAt (memoryImage 0x100 [0x00] 0xFEFF []) 0x100).cycle.2.CPU.PC = 0x101 ∧
      (stateAt (memoryImage 0x100 [0x00] 0xFEFF []) 0x100).cycle.2.CPU.A = 0x5A ∧
      (stateAt (memoryImage 0x100 [0x00] 0xFEFF []) 0x100).cycle.2.CPU.SP = 0xFFFE ∧
      (stateAt (memoryImage 0x100 [0x00] 0xFEFF []) 0x100).cycle.2.CPU.Flags =
        { Z := false, N := true, H := false, C := true } := by
  have h := cycle_nop_only_advances_pc (stateAt (memoryImage 0x100 [0x00] 0xFEFF []) 0x100)
    (memoryImage_wellTyped _ _ _ _ (by decide) (by decide)) rfl (by decide)
    (memoryImage_index_fst 0x100 0xFEFF [] (i := 0) rfl)
  exact ⟨h.2.2.2.2.2.2.2.2.2.2.2, h.2.1, h.2.2.2.2.2.2.2.2.1, h.2.2.2.2.2.2.2.2.2.1⟩

/-! ## The fetch near the top of the address space -/

/-- One cycle that completes is a run of one cycle. -/
theorem Gameboy.Run_one_running {g g' : Gameboy} (h : g.cycle = (.running, g')) :
    g.Run 1 = (.running, g') := by
  simp only [Gameboy.Run, h]

/-- A cycle that completes followed by a cycle that panics is a run of two cycles
that stops on the panic. -/
theorem Gameboy.Run_two_panicked {g g' g'' : Gameboy} {p : RuntimePanic}
    (h₁ : g.cycle = (.running, g')) (h₂ : g'.cycle = (.panicked p, g'')) :
    g.Run 2 = (.panicked p, g'') := by
  simp only [Gameboy.Run, h₁, h₂]

/-- C9: the operand fetch `Memory[pc+1 : pc+3]` of `Run` computes its high bound
`pc+3` in `uint16`, and at PC = 0xFFFD that sum wraps to 0. `NewGameboy`, given a
ROM with `jp 0xFFFD` (bytes 0xC3, 0xFD, 0xFF) at the entry point, returns a state
whose first cycle completes with PC = 0xFFFD. There the one-byte instruction
0x00 and the two bytes after it, at 0xFFFD, 0xFFFE and 0xFFFF, are all inside
the 65536-byte memory, and yet the second cycle does not complete: the slice
expression is `Memory[65534:0]`, it panics, and PC stays at 0xFFFD instead of
advancing by 1. -/
theorem cycle_nop_at_FFFD_panics :
    NewGameboy (.ok (List.replicate 0x100 0 ++ [0xC3, 0xFD, 0xFF]))
        = .ok (entryState [0xC3, 0xFD, 0xFF]) ∧
      ((entryState [0xC3, 0xFD, 0xFF]).Run 1).1 = .running ∧
      ((entryState [0xC3, 0xFD, 0xFF]).Run 1).2.CPU.PC = 0xFFFD ∧
      ((entryState [0xC3, 0xFD, 0xFF]).Run 1).2.Memory.len = 65536 ∧
      ((entryState [0xC3, 0xFD, 0xFF]).Run 1).2.Memory.index 0xFFFD = .ok 0x00 ∧
      ((entryState [0xC3, 0xFD, 0xFF]).Run 1).2.Memory.index 0xFFFE = .ok 0x00 ∧
      ((entryState [0xC3, 0xFD, 0xFF]).Run 1).2.Memory.index 0xFFFF = .ok 0x00 ∧
      ((entryState [0xC3, 0xFD, 0xFF]).Run 1).2.cycle.1 =
        .panicked (.sliceBoundsOutOfRange 0xFFFE 0 65536) ∧
      ((entryState [0xC3, 0xFD, 0xFF]).Run 2).1 =
        .panicked (.sliceBoundsOutOfRange 0xFFFE 0 65536) ∧
      ((entryState [0xC3, 0xFD, 0xFF]).Run 2).2.CPU.PC = 0xFFFD := by
  have hjp := (entryState [0xC3, 0xFD, 0xFF]).cycle_jp
    (memoryImage_wellTyped _ _ _ _ (by decide) (by decide)) rfl (by decide)
    (memoryImage_index_fst EntryPoint _ [] (i := 0) rfl)
    (memoryImage_index_fst EntryPoint _ [] (i := 1) rfl)
    (memoryImage_index_fst EntryPoint _ [] (i := 2) rfl)
  obtain ⟨g₁, hg₁, hm₁, hpc₁⟩ : ∃ g₁ : Gameboy,
      (entryState [0xC3, 0xFD, 0xFF]).cycle = (.running, g₁) ∧
      g₁.Memory = (entryState [0xC3, 0xFD, 0xFF]).Memory ∧
      g₁.CPU.PC = 0xFFFD := ⟨_, hjp, rfl, by decide⟩
  have b0 : g₁.Memory.index 0xFFFD = .ok 0x00 := by
    rw [hm₁]; exact memoryImage_index_gap EntryPoint [0xC3, 0xFD, 0xFF] _ [] (i := 0xFEFA)
      (by decide)
  have b1 : g₁.Memory.index 0xFFFE = .ok 0x00 := by
    rw [hm₁]; exact memoryImage_index_gap EntryPoint [0xC3, 0xFD, 0xFF] _ [] (i := 0xFEFB)
      (by decide)
  have b2 : g₁.Memory.index 0xFFFF = .ok 0x00 := by
    rw [hm₁]; exact memoryImage_index_gap EntryPoint [0xC3, 0xFD, 0xFF] _ [] (i := 0xFEFC)
      (by decide)
  have hlen₁ : g₁.Memory.len = 65536 := by rw [hm₁]; rfl
  have hcap₁ : g₁.Memory.cap = 65536 := by
    rw [hm₁]; exact memoryImage_cap EntryPoint [0xC3, 0xFD, 0xFF] _ []
  have hpanic := g₁.cycle_slice_panics (Or.inl hpc₁) (by rw [hpc₁]; exact b0)
  rw [hpc₁, hcap₁] at hpanic
  have hrun₁ : (entryState [0xC3, 0xFD, 0xFF]).Run 1 = (.running, g₁) :=
    Gameboy.Run_one_running hg₁
  have hrun₂ : (entryState [0xC3, 0xFD, 0xFF]).Run 2 =
      (.panicked (.sliceBoundsOutOfRange 0xFFFE 0 65536), g₁) :=
    Gameboy.Run_two_panicked hg₁ hpanic
  rw [hrun₁, hrun₂]
  exact ⟨NewGameboy_eq_entryState [0xC3, 0xFD, 0xFF] (by decide), rfl, hpc₁, hlen₁, b0, b1, b2,
    congrArg Prod.fst hpanic, rfl, hpc₁⟩

/-- The same fetch one address higher: with 65536 bytes of memory and the one-byte
instruction 0x00 at PC = 0xFFFE, the slice expression is `Memory[65535:1]`, the
cycle panics and PC stays at 0xFFFE. -/
theorem cycle_nop_at_FFFE_panics :
    (stateAt (memoryImage 0xFFFE [0x00, 0x00] 0 []) 0xFFFE).Memory.len = 65536 ∧
      (stateAt (memoryImage 0xFFFE [0x00, 0x00] 0 []) 0xFFFE).Memory.index 0xFFFE = .ok 0x00 ∧
      (stateAt (memoryImage 0xFFFE [0x00, 0x00] 0 []) 0xFFFE).cycle.1 =
        .panicked (.sliceBoundsOutOfRange 0xFFFF 1 65536) ∧
      (stateAt (memoryImage 0xFFFE [0x00, 0x00] 0 []) 0xFFFE).cycle.2.CPU.PC = 0xFFFE := by
  have hop : (stateAt (memoryImage 0xFFFE [0x00, 0x00] 0 []) 0xFFFE).Memory.index
      (stateAt (memoryImage 0xFFFE [0x00, 0x00] 0 []) 0xFFFE).CPU.PC = .ok 0x00 :=
    memoryImage_index_fst 0xFFFE 0 [] (i := 0) rfl
  have h := (stateAt (memoryImage 0xFFFE [0x00, 0x00] 0 []) 0xFFFE).cycle_slice_panics
    (Or.inr rfl) hop
  have hcap : (stateAt (memoryImage 0xFFFE [0x00, 0x00] 0 []) 0xFFFE).Memory.cap = 65536 :=
    memoryImage_cap 0xFFFE [0x00, 0x00] 0 []
  rw [hcap] at h
  rw [h]
  exact ⟨rfl, hop, rfl, rfl⟩

/-- C10, as stated, fails: with 65536 bytes of memory, the byte 0xC3 at PC = 0xFFFF
and the bytes 0x34, 0x12 at addresses 0x0000 and 0x0001, the cycle does not
fault: it completes and sets PC to 0x1234 = memory[0x0000] | memory[0x0001] << 8,
the operand bytes being taken from the low addresses. -/
theorem cycle_jp_at_FFFF_wraps :
    (stateAt (memoryImage 0 [0x34, 0x12] 0xFFFD [0xC3]) 0xFFFF).Memory.len = 65536 ∧
      (stateAt (memoryImage 0 [0x34, 0x12] 0xFFFD [0xC3]) 0xFFFF).Memory.index 0xFFFF
        = .ok 0xC3 ∧
      (stateAt (memoryImage 0 [0x34, 0x12] 0xFFFD [0xC3]) 0xFFFF).Memory.index 0 = .ok 0x34 ∧
      (stateAt (memoryImage 0 [0x34, 0x12] 0xFFFD [0xC3]) 0xFFFF).Memory.index 1 = .ok 0x12 ∧
      (stateAt (memoryImage 0 [0x34, 0x12] 0xFFFD [0xC3]) 0xFFFF).cycle.1 = .running ∧
      (stateAt (memoryImage 0 [0x34, 0x12] 0xFFFD [0xC3]) 0xFFFF).cycle.2.CPU.PC = 0x1234 := by
  have hop : (stateAt (memoryImage 0 [0x34, 0x12] 0xFFFD [0xC3]) 0xFFFF).Memory.index
      (stateAt (memoryImage 0 [0x34, 0x12] 0xFFFD [0xC3]) 0xFFFF).CPU.PC = .ok 0xC3 :=
    memoryImage_index_snd 0 [0x34, 0x12] 0xFFFD (i := 0) rfl
  have hlo : (stateAt (memoryImage 0 [0x34, 0x12] 0xFFFD [0xC3]) 0xFFFF).Memory.index 0
      = .ok 0x34 := memoryImage_index_fst 0 0xFFFD [0xC3] (i := 0) rfl
  have hhi : (stateAt (memoryImage 0 [0x34, 0x12] 0xFFFD [0xC3]) 0xFFFF).Memory.index 1
      = .ok 0x12 := memoryImage_index_fst 0 0xFFFD [0xC3] (i := 1) rfl
  have h := (stateAt (memoryImage 0 [0x34, 0x12] 0xFFFD [0xC3]) 0xFFFF).cycle_wraps_at_top
    (memoryImage_wellTyped _ _ _ _ (by decide) (by decide)) rfl rfl hop hlo hhi
  rw [h]
  exact ⟨rfl, hop, hlo, hhi, rfl, rfl⟩

/-- C10, amended: with 65536 bytes of memory and the opcode 0xC3 or 0x21 at PC,
the cycle of `Run` stops on a slice-bounds panic, the state unchanged, when
PC = 0xFFFE (where PC+2 exceeds 0xFFFF). At PC = 0xFFFF the 16-bit sums PC+1 and
PC+3 wrap to 0 and 2: the operand is `memory[0x0000] | memory[0x0001] << 8`, the
cycle completes, and with the opcode 0xC3 it sets PC to that operand. -/
theorem fetch_at_top_faults_or_wraps (g : Gameboy) (hmem : g.Memory.WellTyped)
    (hlen : g.Memory.len = 65536) (op : Nat) (hop : g.Memory.index g.CPU.PC = .ok op)
    (hsup : op = 0xC3 ∨ op = 0x21) :
    (g.CPU.PC = 0xFFFE → ∃ p, g.cycle = (.panicked p, g)) ∧
      (g.CPU.PC = 0xFFFF → ∃ lo hi, g.Memory.index 0 = .ok lo ∧ g.Memory.index 1 = .ok hi ∧
        g.cycle = g.execute op (lo ||| hi <<< 8) ∧ g.cycle.1 = .running ∧
        (op = 0xC3 → g.cycle.2.CPU.PC = lo ||| hi <<< 8)) := by
  constructor
  · intro hpc
    exact ⟨_, g.cycle_slice_panics (Or.inr hpc) hop⟩
  · intro hpc
    obtain ⟨lo, hlo, hlo'⟩ := g.Memory.index_of_lt hmem 0 (by omega)
    obtain ⟨hi, hhi, hhi'⟩ := g.Memory.index_of_lt hmem 1 (by omega)
    have hw := word_of_bytes lo hi hlo' hhi'
    refine ⟨lo, hi, hlo, hhi, ?_⟩
    rw [g.cycle_wraps_at_top hmem hlen hpc hop hlo hhi, hw.1]
    rcases hsup with h | h <;> subst h <;> simp [Gameboy.execute]

/-- C10, amended, on a state with the bytes 0xC3, 0x00 at PC = 0xFFFE: the cycle
panics and PC is still 0xFFFE; and on a state with the byte 0x21 at PC = 0xFFFF
and the bytes 0x34, 0x12 at addresses 0 and 1: the cycle completes with
H:L = 0x1234 and PC = 0x0002. -/
theorem fetch_at_top_faults_or_wraps_witness :
    ((∃ p, (stateAt (memoryImage 0 [0x34, 0x12] 0xFFFC [0xC3, 0x00]) 0xFFFE).cycle.1
        = .panicked p) ∧
      (stateAt (memoryImage 0 [0x34, 0x12] 0xFFFC [0xC3, 0x00]) 0xFFFE).cycle.2.CPU.PC
        = 0xFFFE) ∧
    ((stateAt (memoryImage 0 [0x34, 0x12] 0xFFFD [0x21]) 0xFFFF).cycle.1 = .running ∧
      (stateAt (memoryImage 0 [0x34, 0x12] 0xFFFD [0x21]) 0xFFFF).cycle.2.CPU.GetHL = 0x1234 ∧
      (stateAt (memoryImage 0 [0x34, 0x12] 0xFFFD [0x21]) 0xFFFF).cycle.2.CPU.PC = 0x0002) := by
  constructor
  · obtain ⟨p, h⟩ := (fetch_at_top_faults_or_wraps
      (stateAt (memoryImage 0 [0x34, 0x12] 0xFFFC [0xC3, 0x00]) 0xFFFE)
      (memoryImage_wellTyped _ _ _ _ (by decide) (by decide)) rfl 0xC3
      (memoryImage_index_snd 0 [0x34, 0x12] 0xFFFC (i := 0) rfl) (Or.inl rfl)).1 rfl
    rw [h]
    exact ⟨⟨p, rfl⟩, rfl⟩
  · obtain ⟨lo, hi, hlo, hhi, h, _⟩ := (fetch_at_top_faults_or_wraps
      (stateAt (memoryImage 0 [0x34, 0x12] 0xFFFD [0x21]) 0xFFFF)
      (memoryImage_wellTyped _ _ _ _ (by decide) (by decide)) rfl 0x21
      (memoryImage_index_snd 0 [0x34, 0x12] 0xFFFD (i := 0) rfl) (Or.inr rfl)).2 rfl
    have e0 : (memoryImage 0 [0x34, 0x12] 0xFFFD [0x21]).index (0 + 0) = .ok 0x34 :=
      memoryImage_index_fst 0 0xFFFD [0x21] (i := 0) rfl
    have e1 : (memoryImage 0 [0x34, 0x12] 0xFFFD [0x21]).index (0 + 1) = .ok 0x12 :=
      memoryImage_index_fst 0 0xFFFD [0x21] (i := 1) rfl
    have hlo' : lo = 0x34 := Except.ok.inj (hlo.symm.trans e0)
    have hhi' : hi = 0x12 := Except.ok.inj (hhi.symm.trans e1)
    subst hlo' hhi'
    rw [h]
    exact ⟨rfl, rfl, rfl⟩

/-! ## Memory is never written -/

/-- The dispatch leaves the memory as it is. -/
theorem Gameboy.execute_memory (g : Gameboy) (opcode operand : Nat) :
    (g.execute opcode operand).2.Memory = g.Memory := by
  unfold Gameboy.execute
  split_ifs <;> rfl

/-- One cycle leaves the memory as it is, whatever the state and the outcome. -/
theorem Gameboy.cycle_memory (g : Gameboy) : g.cycle.2.Memory = g.Memory := by
  simp only [Gameboy.cycle]
  split
  · rfl
  · split
    · rfl
    · split
      · rfl
      · exact g.execute_memory _ _

/-- Any number of cycles leaves the memory as it is. -/
theorem Gameboy.Run_memory (n : Nat) (g : Gameboy) : (g.Run n).2.Memory = g.Memory := by
  induction n generalizing g with
  | zero => rfl
  | succ n ih =>
    have hc := g.cycle_memory
    unfold Gameboy.Run
    split
    · rename_i g' heq
      rw [heq] at hc
      rw [ih g']
      exact hc
    · exact hc

/-- C17: no cycle of `Run` ever writes memory. For every starting state and every
number `n` of cycles, whether the run is still going or has stopped on an error
or a panic, the memory after the run is the memory at the start: same length,
same capacity, and the same outcome of reading at every address. -/
theorem run_never_writes_memory (g : Gameboy) (n : Nat) :
    (g.Run n).2.Memory = g.Memory ∧ (g.Run n).2.Memory.len = g.Memory.len ∧
      (g.Run n).2.Memory.cap = g.Memory.cap ∧
      ∀ i, (g.Run n).2.Memory.index i = g.Memory.index i := by
  have h := Gameboy.Run_memory n g
  refine ⟨h, ?_, ?_, ?_⟩
  · rw [h]
  · rw [h]
  · intro i
    rw [h]

/-! ## The register pair H:L, frame and storage -/

/-- C14: for every CPU state and every value `v`, `SetHL(v)` changes only the
registers H and L: the four flags and the registers A, B, C, D, E, SP, PC are
after the call what they were before; and the call `GetHL()` leaves the whole
CPU as it was. -/
theorem setHL_changes_only_h_l (cpu : CPU) (v : Nat) :
    (cpu.SetHL v).Flags.Z = cpu.Flags.Z ∧ (cpu.SetHL v).Flags.N = cpu.Flags.N ∧
      (cpu.SetHL v).Flags.H = cpu.Flags.H ∧ (cpu.SetHL v).Flags.C = cpu.Flags.C ∧
      (cpu.SetHL v).A = cpu.A ∧ (cpu.SetHL v).B = cpu.B ∧ (cpu.SetHL v).C = cpu.C ∧
      (cpu.SetHL v).D = cpu.D ∧ (cpu.SetHL v).E = cpu.E ∧ (cpu.SetHL v).SP = cpu.SP ∧
      (cpu.SetHL v).PC = cpu.PC ∧ cpu.callGetHL.2 = cpu ∧ cpu.callGetHL.1 = cpu.GetHL :=
  ⟨rfl, rfl, rfl, rfl, rfl, rfl, rfl, rfl, rfl, rfl, rfl, rfl, rfl⟩

/-- C16: for every CPU state (H and L being `uint8` values), `SetHL(GetHL())`
leaves the whole CPU state unchanged, H and L keeping their values: the pair has
no storage of its own, and `GetHL` is `(H << 8) | L`. -/
theorem setHL_of_getHL_is_identity (cpu : CPU) (hH : cpu.H < 256) (hL : cpu.L < 256) :
    cpu.callGetHL.2.SetHL cpu.callGetHL.1 = cpu ∧ cpu.SetHL cpu.GetHL = cpu ∧
      (cpu.SetHL cpu.GetHL).H = cpu.H ∧ (cpu.SetHL cpu.GetHL).L = cpu.L ∧
      cpu.GetHL = cpu.H <<< 8 ||| cpu.L := by
  have hg : cpu.GetHL = cpu.H <<< 8 ||| cpu.L := by
    rw [CPU.GetHL, shl8_mod_word cpu.H hH]
  have hv : cpu.GetHL = cpu.H * 256 + cpu.L := by
    rw [hg, shl8_or_eq_add cpu.H cpu.L hL]
  have eH : (cpu.GetHL >>> 8) % 256 = cpu.H := by
    rw [hv, Nat.shiftRight_eq_div_pow]; norm_num; omega
  have eL : (cpu.GetHL &&& 0xFF) % 256 = cpu.L := by
    rw [hv, and_255_eq_mod]; omega
  have hset : cpu.SetHL cpu.GetHL = cpu := by
    rw [CPU.SetHL, eH, eL]
  refine ⟨hset, hset, ?_, ?_, hg⟩
  · rw [hset]
  · rw [hset]

/-- C16 on the CPU with H = 0x12 and L = 0x34: `GetHL` is 0x1234 and writing it
back gives the same CPU. -/
theorem setHL_of_getHL_is_identity_witness :
    ({ CPU.zero with H := 0x12, L := 0x34 } : CPU).GetHL = 0x1234 ∧
      ({ CPU.zero with H := 0x12, L := 0x34 } : CPU).SetHL 0x1234
        = { CPU.zero with H := 0x12, L := 0x34 } := by
  have h := setHL_of_getHL_is_identity { CPU.zero with H := 0x12, L := 0x34 }
    (by decide) (by decide)
  exact ⟨h.2.2.2.2, h.2.1⟩

/-! ## The state returned by NewGameboy -/

/-- C13: for every program image that is read successfully, `NewGameboy` succeeds
and the CPU it returns has A, B, C, D, E, H, L and SP equal to 0, the four flags
false and PC equal to the entry point 0x0100, whatever the image holds. -/
theorem newGameboy_cpu_initial (rom : List Nat) :
    ∃ g, NewGameboy (.ok rom) = .ok g ∧
      g.CPU.A = 0 ∧ g.CPU.B = 0 ∧ g.CPU.C = 0 ∧ g.CPU.D = 0 ∧ g.CPU.E = 0 ∧
      g.CPU.H = 0 ∧ g.CPU.L = 0 ∧ g.CPU.SP = 0 ∧
      g.CPU.Flags.Z = false ∧ g.CPU.Flags.N = false ∧ g.CPU.Flags.H = false ∧
      g.CPU.Flags.C = false ∧ g.CPU.PC = 0x0100 :=
  ⟨_, rfl, rfl, rfl, rfl, rfl, rfl, rfl, rfl, rfl, rfl, rfl, rfl, rfl, rfl⟩

/-- The bytes of `copy(make([]uint8, n), src)`: those of `src` cut at `n`, then
zeros up to `n`. -/
theorem copyBytes_makeBytes_elems (n : Nat) (src : List Nat) :
    (copyBytes (makeBytes n) src).elems =
      src.take (min n src.length) ++ List.replicate (n - min n src.length) 0 := by
  simp only [copyBytes, makeBytes, List.drop_replicate]

theorem copyBytes_makeBytes_cap (n : Nat) (src : List Nat) :
    (copyBytes (makeBytes n) src).cap = n := by
  rw [ByteSlice.cap, copyBytes_makeBytes_elems, List.length_append, List.length_take,
    List.length_replicate]
  omega

/-- Below the length of the source, `copy` put the byte of the source. -/
theorem copyBytes_makeBytes_index_src (n : Nat) (src : List Nat) (i b : Nat) (hi : i < n)
    (h : src[i]? = some b) : (copyBytes (makeBytes n) src).index i = .ok b := by
  obtain ⟨hlt, _⟩ := List.getElem?_eq_some.1 h
  have hm : i < min n src.length := by omega
  have e : (copyBytes (makeBytes n) src).elems[i]? = some b := by
    rw [copyBytes_makeBytes_elems,
      List.getElem?_append_left (by rw [List.length_take]; omega),
      List.getElem?_take_of_lt hm]
    exact h
  have hl : i < (copyBytes (makeBytes n) src).len := hi
  simp only [ByteSlice.index, hl, if_true, e]

/-- From the length of the source on, the zero of `make` is still there. -/
theorem copyBytes_makeBytes_index_zero (n : Nat) (src : List Nat) (i : Nat) (hi : i < n)
    (h : src.length ≤ i) : (copyBytes (makeBytes n) src).index i = .ok 0 := by
  have hm : min n src.length = src.length := by omega
  have e : (copyBytes (makeBytes n) src).elems[i]? = some 0 := by
    rw [copyBytes_makeBytes_elems, hm,
      List.getElem?_append_right (by rw [List.length_take]; omega), List.length_take,
      List.getElem?_replicate_of_lt (by omega)]
  have hl : i < (copyBytes (makeBytes n) src).len := hi
  simp only [ByteSlice.index, hl, if_true, e]

/-- C12: for every program image that is read successfully, of any length,
`NewGameboy` succeeds and returns a memory of exactly 65536 bytes (length and
capacity) in which byte `i` is `image[i]` for every `i < min(len(image), 65536)`
and is 0 for every `i` with `len(image) <= i < 65536`. -/
theorem newGameboy_memory_is_padded_image (rom : List Nat) :
    ∃ g, NewGameboy (.ok rom) = .ok g ∧ g.Memory.len = 65536 ∧ g.Memory.cap = 65536 ∧
      (∀ i b, i < 65536 → rom[i]? = some b → g.Memory.index i = .ok b) ∧
      (∀ i, rom.length ≤ i → i < 65536 → g.Memory.index i = .ok 0) :=
  ⟨_, rfl, rfl, copyBytes_makeBytes_cap MemorySize rom,
    fun i b hi h => copyBytes_makeBytes_index_src MemorySize rom i b hi h,
    fun i h hi => copyBytes_makeBytes_index_zero MemorySize rom i hi h⟩

/-! ## Determinism of one cycle -/

/-- The dispatch reads the state through the CPU only. -/
theorem Gameboy.execute_congr (g₁ g₂ : Gameboy) (h : g₁.CPU = g₂.CPU) (opcode operand : Nat) :
    (g₁.execute opcode operand).1 = (g₂.execute opcode operand).1 ∧
      (g₁.execute opcode operand).2.CPU = (g₂.execute opcode operand).2.CPU := by
  simp only [Gameboy.execute, h]
  split_ifs
  · exact ⟨rfl, rfl⟩
  · exact ⟨rfl, rfl⟩
  · exact ⟨rfl, rfl⟩
  · exact ⟨rfl, rfl⟩
  · exact ⟨rfl, h⟩

/-- The dispatch never panics: it goes on or returns the unsupported-opcode error. -/
theorem Gameboy.execute_status (g : Gameboy) (opcode operand : Nat) :
    (g.execute opcode operand).1 = .running ∨
      (g.execute opcode operand).1 = .returned (unsupportedOpcode opcode) := by
  simp only [Gameboy.execute]
  split_ifs
  · exact Or.inl rfl
  · exact Or.inl rfl
  · exact Or.inl rfl
  · exact Or.inl rfl
  · exact Or.inr rfl

/-- C15: one cycle of `Run` is a function of the register file and of the three
bytes at PC, PC+1 and PC+2 only. For two states with equal registers and flags,
`PC <= 0xFFFC`, and 65536-byte memories that agree at PC: if the memories also
agree at PC+1 and PC+2, the cycle completes in both or fails with the same error
in both, and leaves equal registers and flags in both; and if the byte at PC is
0x00 or 0xAF the same holds without any agreement at PC+1 and PC+2. -/
theorem cycle_depends_on_cpu_and_three_bytes (g₁ g₂ : Gameboy) (hcpu : g₁.CPU = g₂.CPU)
    (hmem₁ : g₁.Memory.WellTyped) (hlen₁ : g₁.Memory.len = 65536)
    (hmem₂ : g₂.Memory.WellTyped) (hlen₂ : g₂.Memory.len = 65536)
    (hpc : g₁.CPU.PC ≤ 0xFFFC)
    (h0 : g₁.Memory.index g₁.CPU.PC = g₂.Memory.index g₁.CPU.PC) :
    (g₁.Memory.index (g₁.CPU.PC + 1) = g₂.Memory.index (g₁.CPU.PC + 1) →
      g₁.Memory.index (g₁.CPU.PC + 2) = g₂.Memory.index (g₁.CPU.PC + 2) →
        (g₁.cycle.1 = .running ∨ ∃ op, g₁.cycle.1 = .returned (unsupportedOpcode op)) ∧
        g₁.cycle.1 = g₂.cycle.1 ∧ g₁.cycle.2.CPU = g₂.cycle.2.CPU) ∧
      (g₁.Memory.index g₁.CPU.PC = .ok 0x00 ∨ g₁.Memory.index g₁.CPU.PC = .ok 0xAF →
        g₁.cycle.1 = .running ∧
        g₁.cycle.1 = g₂.cycle.1 ∧ g₁.cycle.2.CPU = g₂.cycle.2.CPU) := by
  have hpc₂ : g₂.CPU.PC ≤ 0xFFFC := hcpu ▸ hpc
  constructor
  · intro h1 h2
    obtain ⟨op, hop, _⟩ := g₁.Memory.index_of_lt hmem₁ g₁.CPU.PC (by omega)
    obtain ⟨lo, hlo, _⟩ := g₁.Memory.index_of_lt hmem₁ (g₁.CPU.PC + 1) (by omega)
    obtain ⟨hi, hhi, _⟩ := g₁.Memory.index_of_lt hmem₁ (g₁.CPU.PC + 2) (by omega)
    have e₁ := g₁.cycle_eq_execute hmem₁ hlen₁ hpc hop hlo hhi
    have hop₂ : g₂.Memory.index g₂.CPU.PC = .ok op := by rw [← hcpu, ← h0]; exact hop
    have hlo₂ : g₂.Memory.index (g₂.CPU.PC + 1) = .ok lo := by rw [← hcpu, ← h1]; exact hlo
    have hhi₂ : g₂.Memory.index (g₂.CPU.PC + 2) = .ok hi := by rw [← hcpu, ← h2]; exact hhi
    have e₂ := g₂.cycle_eq_execute hmem₂ hlen₂ hpc₂ hop₂ hlo₂ hhi₂
    have hc := Gameboy.execute_congr g₁ g₂ hcpu op (lo ||| (hi <<< 8) % 65536)
    have hs := g₁.execute_status op (lo ||| (hi <<< 8) % 65536)
    rw [e₁, e₂]
    refine ⟨?_, hc.1, hc.2⟩
    rcases hs with hs | hs
    · exact Or.inl hs
    · exact Or.inr ⟨op, hs⟩
  · intro hop
    rcases hop with hop | hop
    · rw [g₁.cycle_nop hmem₁ hlen₁ hpc hop,
        g₂.cycle_nop hmem₂ hlen₂ hpc₂ (by rw [← hcpu, ← h0]; exact hop), hcpu]
      exact ⟨rfl, rfl, rfl⟩
    · rw [g₁.cycle_xor hmem₁ hlen₁ hpc hop,
        g₂.cycle_xor hmem₂ hlen₂ hpc₂ (by rw [← hcpu, ← h0]; exact hop), hcpu]
      exact ⟨rfl, rfl, rfl⟩

/-- C15 on two pairs of states. The first pair holds 0xC3, 0x50, 0x01 at
PC = 0x0100 and differs at address 0xFFFF: same outcome, same registers. The
second pair holds 0x00 at PC = 0x0100 and differs at PC+1 and PC+2: same outcome,
same registers. -/
theorem cycle_depends_on_cpu_and_three_bytes_witness :
    ((stateAt (memoryImage 0x100 [0xC3, 0x50, 0x01] 0xFEFD []) 0x100).cycle.1 =
        (stateAt (memoryImage 0x100 [0xC3, 0x50, 0x01] 0xFEFC [0x77]) 0x100).cycle.1 ∧
      (stateAt (memoryImage 0x100 [0xC3, 0x50, 0x01] 0xFEFD []) 0x100).cycle.2.CPU =
        (stateAt (memoryImage 0x100 [0xC3, 0x50, 0x01] 0xFEFC [0x77]) 0x100).cycle.2.CPU) ∧
    ((stateAt (memoryImage 0x100 [0x00, 0x11, 0x22] 0xFEFD []) 0x100).cycle.1 =
        (stateAt (memoryImage 0x100 [0x00, 0x33, 0x44] 0xFEFD []) 0x100).cycle.1 ∧
      (stateAt (memoryImage 0x100 [0x00, 0x11, 0x22] 0xFEFD []) 0x100).cycle.2.CPU =
        (stateAt (memoryImage 0x100 [0x00, 0x33, 0x44] 0xFEFD []) 0x100).cycle.2.CPU) := by
  have a := (cycle_depends_on_cpu_and_three_bytes
    (stateAt (memoryImage 0x100 [0xC3, 0x50, 0x01] 0xFEFD []) 0x100)
    (stateAt (memoryImage 0x100 [0xC3, 0x50, 0x01] 0xFEFC [0x77]) 0x100)
    (by simp only [stateAt])
    (memoryImage_wellTyped _ _ _ _ (by decide) (by decide)) rfl
    (memoryImage_wellTyped _ _ _ _ (by decide) (by decide)) rfl (by decide)
    ((memoryImage_index_fst 0x100 0xFEFD [] (i := 0) rfl).trans
      (memoryImage_index_fst 0x100 0xFEFC [0x77] (i := 0) rfl).symm)).1
    ((memoryImage_index_fst 0x100 0xFEFD [] (i := 1) rfl).trans
      (memoryImage_index_fst 0x100 0xFEFC [0x77] (i := 1) rfl).symm)
    ((memoryImage_index_fst 0x100 0xFEFD [] (i := 2) rfl).trans
      (memoryImage_index_fst 0x100 0xFEFC [0x77] (i := 2) rfl).symm)
  have b := (cycle_depends_on_cpu_and_three_bytes
    (stateAt (memoryImage 0x100 [0x00, 0x11, 0x22] 0xFEFD []) 0x100)
    (stateAt (memoryImage 0x100 [0x00, 0x33, 0x44] 0xFEFD []) 0x100)
    (by simp only [stateAt])
    (memoryImage_wellTyped _ _ _ _ (by decide) (by decide)) rfl
    (memoryImage_wellTyped _ _ _ _ (by decide) (by decide)) rfl (by decide)
    ((memoryImage_index_fst 0x100 0xFEFD [] (i := 0) rfl).trans
      (memoryImage_index_fst 0x100 0xFEFD [] (i := 0) rfl).symm)).2
    (Or.inl (memoryImage_index_fst 0x100 0xFEFD [] (i := 0) rfl))
  exact ⟨⟨a.2.1, a.2.2⟩, ⟨b.2.1, b.2.2⟩⟩

/-! ## The loop program runs for ever -/

/-- One cycle of the loop program: it completes, and the registers move from their
shape after `n` cycles to their shape after `n + 1` cycles. -/
theorem loop_cycle (m : ByteSlice) (hm : m.WellTyped) (hlen : m.len = 65536)
    (himg : LoopImage m) (n : Nat) (cpu : CPU) (hinv : LoopInv n cpu) :
    ∃ cpu', Gameboy.cycle { Memory := m, CPU := cpu } =
      (.running, { Memory := m, CPU := cpu' }) ∧ LoopInv (n + 1) cpu' := by
  obtain ⟨h0, h1, h2, h3, h4, h5, h6, h7⟩ := himg
  obtain ⟨hpc, hhl, ha⟩ := hinv
  have hcase : n % 4 = 0 ∨ n % 4 = 1 ∨ n % 4 = 2 ∨ n % 4 = 3 := by omega
  rcases hcase with hc | hc | hc | hc
  · -- ld HL,0x1234 at 0x0100
    have hpc' : cpu.PC = 0x100 := by rw [hpc]; simp [loopPC, hc]
    have hnext : loopPC (n + 1) = 0x103 := by
      have : (n + 1) % 4 = 1 := by omega
      simp [loopPC, this]
    have hop : m.index cpu.PC = .ok 0x21 := by rw [hpc']; exact h0
    have hlo : m.index (cpu.PC + 1) = .ok 0x34 := by rw [hpc']; exact h1
    have hhi : m.index (cpu.PC + 2) = .ok 0x12 := by rw [hpc']; exact h2
    have e := Gameboy.cycle_ld { Memory := m, CPU := cpu } hm hlen
      (by show cpu.PC ≤ 0xFFFC; omega) hop hlo hhi
    refine ⟨_, e, ?_, fun _ => ⟨rfl, rfl⟩, fun h => ?_⟩
    · show cpu.PC + 3 = loopPC (n + 1)
      rw [hnext, hpc']
    · exact ha (by omega)
  · -- xor A,A at 0x0103
    have hpc' : cpu.PC = 0x103 := by rw [hpc]; simp [loopPC, hc]
    have hnext : loopPC (n + 1) = 0x104 := by
      have : (n + 1) % 4 = 2 := by omega
      simp [loopPC, this]
    have e := Gameboy.cycle_xor { Memory := m, CPU := cpu } hm hlen
      (by show cpu.PC ≤ 0xFFFC; omega)
      (by show m.index cpu.PC = _; rw [hpc']; exact h3)
    refine ⟨_, e, ?_, fun _ => hhl (by omega), fun _ => rfl⟩
    show cpu.PC + 1 = loopPC (n + 1)
    rw [hnext, hpc']
  · -- nop at 0x0104
    have hpc' : cpu.PC = 0x104 := by rw [hpc]; simp [loopPC, hc]
    have hnext : loopPC (n + 1) = 0x105 := by
      have : (n + 1) % 4 = 3 := by omega
      simp [loopPC, this]
    have e := Gameboy.cycle_nop { Memory := m, CPU := cpu } hm hlen
      (by show cpu.PC ≤ 0xFFFC; omega)
      (by show m.index cpu.PC = _; rw [hpc']; exact h4)
    refine ⟨_, e, ?_, fun _ => hhl (by omega), fun _ => ha (by omega)⟩
    show cpu.PC + 1 = loopPC (n + 1)
    rw [hnext, hpc']
  · -- jp 0x0100 at 0x0105
    have hpc' : cpu.PC = 0x105 := by rw [hpc]; simp [loopPC, hc]
    have hnext : loopPC (n + 1) = 0x100 := by
      have : (n + 1) % 4 = 0 := by omega
      simp [loopPC, this]
    have hop : m.index cpu.PC = .ok 0xC3 := by rw [hpc']; exact h5
    have hlo : m.index (cpu.PC + 1) = .ok 0x00 := by rw [hpc']; exact h6
    have hhi : m.index (cpu.PC + 2) = .ok 0x01 := by rw [hpc']; exact h7
    have e := Gameboy.cycle_jp { Memory := m, CPU := cpu } hm hlen
      (by show cpu.PC ≤ 0xFFFC; omega) hop hlo hhi
    refine ⟨_, e, ?_, fun _ => hhl (by omega), fun _ => ha (by omega)⟩
    show 0x00 ||| 0x01 <<< 8 = loopPC (n + 1)
    rw [hnext]
    decide

/-- Any number `k` of cycles of the loop program complete, and the registers move
from their shape after `n` cycles to their shape after `n + k` cycles. -/
theorem loop_run (m : ByteSlice) (hm : m.WellTyped) (hlen : m.len = 65536)
    (himg : LoopImage m) (k : Nat) :
    ∀ (n : Nat) (cpu : CPU), LoopInv n cpu →
      ∃ cpu', Gameboy.Run k { Memory := m, CPU := cpu } =
        (.running, { Memory := m, CPU := cpu' }) ∧ LoopInv (n + k) cpu' := by
  induction k with
  | zero =>
    intro n cpu hinv
    exact ⟨cpu, rfl, hinv⟩
  | succ k ih =>
    intro n cpu hinv
    obtain ⟨cpu₁, hcycle, hinv₁⟩ := loop_cycle m hm hlen himg n cpu hinv
    obtain ⟨cpu₂, hrun, hinv₂⟩ := ih (n + 1) cpu₁ hinv₁
    refine ⟨cpu₂, ?_, ?_⟩
    · simp only [Gameboy.Run, hcycle]
      exact hrun
    · have e : n + (k + 1) = n + 1 + k := by omega
      rw [e]
      exact hinv₂

/-- C11: from PC = 0x0100 with a 65536-byte memory holding the bytes
0x21, 0x34, 0x12, 0xAF, 0x00, 0xC3, 0x00, 0x01 at 0x0100..0x0107, whatever the
other registers, the flags and the rest of the memory, `Run` never halts: for
every cycle bound `n` the first `n` cycles all complete; after `n` cycles PC is
0x0100, 0x0103, 0x0104 or 0x0105 according to `n mod 4` = 0, 1, 2, 3; for every
`n >= 1` the pair H:L is 0x1234 and for every `n >= 2` A is 0. -/
theorem loop_program_never_halts (g : Gameboy) (hmem : g.Memory.WellTyped)
    (hlen : g.Memory.len = 65536) (hpc : g.CPU.PC = 0x0100)
    (h0 : g.Memory.index 0x0100 = .ok 0x21) (h1 : g.Memory.index 0x0101 = .ok 0x34)
    (h2 : g.Memory.index 0x0102 = .ok 0x12) (h3 : g.Memory.index 0x0103 = .ok 0xAF)
    (h4 : g.Memory.index 0x0104 = .ok 0x00) (h5 : g.Memory.index 0x0105 = .ok 0xC3)
    (h6 : g.Memory.index 0x0106 = .ok 0x00) (h7 : g.Memory.index 0x0107 = .ok 0x01)
    (n : Nat) :
    (g.Run n).1 = .running ∧
      (n % 4 = 0 → (g.Run n).2.CPU.PC = 0x0100) ∧ (n % 4 = 1 → (g.Run n).2.CPU.PC = 0x0103) ∧
      (n % 4 = 2 → (g.Run n).2.CPU.PC = 0x0104) ∧ (n % 4 = 3 → (g.Run n).2.CPU.PC = 0x0105) ∧
      (1 ≤ n → (g.Run n).2.CPU.GetHL = 0x1234) ∧ (2 ≤ n → (g.Run n).2.CPU.A = 0) := by
  have hinv₀ : LoopInv 0 g.CPU :=
    ⟨by rw [hpc]; simp [loopPC], fun h => absurd h (by omega), fun h => absurd h (by omega)⟩
  obtain ⟨cpu', hrun, hinv⟩ :=
    loop_run g.Memory hmem hlen ⟨h0, h1, h2, h3, h4, h5, h6, h7⟩ n 0 g.CPU hinv₀
  have hrun' : g.Run n = (.running, { Memory := g.Memory, CPU := cpu' }) := hrun
  rw [Nat.zero_add] at hinv
  obtain ⟨hPC, hHL, hA⟩ := hinv
  rw [hrun']
  refine ⟨rfl, ?_, ?_, ?_, ?_, ?_, hA⟩
  · intro h; show cpu'.PC = 0x100; rw [hPC]; simp [loopPC, h]
  · intro h; show cpu'.PC = 0x103; rw [hPC]; simp [loopPC, h]
  · intro h; show cpu'.PC = 0x104; rw [hPC]; simp [loopPC, h]
  · intro h; show cpu'.PC = 0x105; rw [hPC]; simp [loopPC, h]
  · intro h
    obtain ⟨hH, hL⟩ := hHL h
    show ((cpu'.H <<< 8) % 65536) ||| cpu'.L = 0x1234
    rw [hH, hL]
    decide

/-- C11 on the state `NewGameboy` returns for the ROM with the eight bytes at
offset 0x100: six cycles complete, after which PC is 0x0104, H:L is 0x1234 and A
is 0. -/
theorem loop_program_never_halts_witness :
    ((entryState [0x21, 0x34, 0x12, 0xAF, 0x00, 0xC3, 0x00, 0x01]).Run 6).1 = .running ∧
      ((entryState [0x21, 0x34, 0x12, 0xAF, 0x00, 0xC3, 0x00, 0x01]).Run 6).2.CPU.PC = 0x0104 ∧
      ((entryState [0x21, 0x34, 0x12, 0xAF, 0x00, 0xC3, 0x00, 0x01]).Run 6).2.CPU.GetHL
        = 0x1234 ∧
      ((entryState [0x21, 0x34, 0x12, 0xAF, 0x00, 0xC3, 0x00, 0x01]).Run 6).2.CPU.A = 0 := by
  have h := loop_program_never_halts
    (entryState [0x21, 0x34, 0x12, 0xAF, 0x00, 0xC3, 0x00, 0x01])
    (memoryImage_wellTyped _ _ _ _ (by decide) (by decide)) rfl rfl
    (memoryImage_index_fst EntryPoint _ [] (i := 0) rfl)
    (memoryImage_index_fst EntryPoint _ [] (i := 1) rfl)
    (memoryImage_index_fst EntryPoint _ [] (i := 2) rfl)
    (memoryImage_index_fst EntryPoint _ [] (i := 3) rfl)
    (memoryImage_index_fst EntryPoint _ [] (i := 4) rfl)
    (memoryImage_index_fst EntryPoint _ [] (i := 5) rfl)
    (memoryImage_index_fst EntryPoint _ [] (i := 6) rfl)
    (memoryImage_index_fst EntryPoint _ [] (i := 7) rfl) 6
  exact ⟨h.1, h.2.2.2.1 (by decide), h.2.2.2.2.2.1 (by decide), h.2.2.2.2.2.2 (by decide)⟩

end GB
